import Mathlib

/-!
# Hostname resolution cache (go/inst/resolve_dao.go)

A shallow embedding of the forward store (table hostname_resolve), the reverse
store (table hostname_unresolve), their two history tables, and of the functions
of resolve_dao.go that read and write them.  Further sections of definitions embed
the pool functions of go/inst/pool_dao.go, whose write runs in a transaction, and
the client certificate check of go/ssl/ssl.go.

Modelling conventions.

* A Go error value is an optional message: none is nil.
* A table is the list of its rows, in storage order.  The unique key of a table is
  not built into the type: it is the predicate UniqueHostnames, shown to be kept
  by every statement.
* Timestamps are whole seconds (Int); NOW() is the field now of the world, and
  INTERVAL n MINUTE is 60 * n seconds.  The range limits of SQL date arithmetic
  are not modelled.
* SQL string comparison is taken to be exact equality of strings.
* A statement handed to the store either fails, leaving every table as it was, or
  takes effect as a whole.  Which of the two happens is an argument of each
  function (a fault), so that theorems quantify over every failure pattern.
* Every statement handed to db.ExecOrchestrator is recorded in the field executed
  of the world, together with whether the write serializer was held.
* The metrics counters are observability only and are left out.
-/

namespace Orchestrator

/-- A Go error value: none is nil, some msg is an error carrying that message. -/
abbrev GoError := Option String

/-- The text the formatting verb %v produces for an error value. -/
def fmtError : GoError → String
  | none => "<nil>"
  | some e => e

namespace log

/-- Library golib, log.Errore: logs the error when there is one and returns it as it is. -/
def Errore (err : GoError) : GoError := err

/-- Library golib, log.Errorf: logs the formatted message and returns a new error made of
it (errors.New); the result is never nil. -/
def Errorf (message : String) : GoError := some message

end log

/-- Row of hostname_resolve, and of hostname_resolve_history, which has the same columns. -/
structure ResolveRow where
  hostname : String
  resolved_hostname : String
  resolved_timestamp : Int
deriving DecidableEq, Repr

/-- Row of hostname_unresolve, and of hostname_unresolve_history, which has the same columns. -/
structure UnresolveRow where
  hostname : String
  unresolved_hostname : String
  last_registered : Int
deriving DecidableEq, Repr

/-- InstanceKey as used by resolve_dao.go: a hostname and a port. -/
structure InstanceKey where
  Hostname : String
  Port : Int
deriving DecidableEq, Repr

/-- The options of config.Configuration read by the code embedded here, with the defaults
of NewConfiguration: ExpiryHostnameResolvesMinutes is an int in Go, 60 by default;
StatusEndpoint defaults to /api/status; StatusOUVerify defaults to false. -/
structure Configuration where
  ExpiryHostnameResolvesMinutes : Int := 60
  StatusEndpoint : String := "/api/status"
  StatusOUVerify : Bool := false
deriving DecidableEq, Repr

/-- Row of database_instance, reduced to the columns the queries embedded here read. -/
structure DatabaseInstanceRow where
  hostname : String
  port : Int
  cluster_name : String := ""
deriving DecidableEq, Repr

/-- The mutating SQL statements resolve_dao.go hands to db.ExecOrchestrator, with their
arguments. -/
inductive Stmt where
  | insertHostnameResolve (hostname resolvedHostname : String)
  | insertHostnameResolveHistory (hostname resolvedHostname : String)
  | insertHostnameUnresolve (hostname unresolvedHostname : String)
  | replaceHostnameUnresolveHistory (hostname unresolvedHostname : String)
  | deleteHostnameUnresolve (hostname : String)
  | expireHostnameUnresolve (minutes : Int)
  | forgetHostnameResolves (minutes : Int)
  | deleteHostnameResolve (hostname : String)
  | deleteAllHostnameResolves
deriving DecidableEq, Repr

/-- A statement as it reached the store, and whether the write serializer was held then. -/
structure Issued where
  stmt : Stmt
  serialized : Bool
deriving DecidableEq, Repr

/-- Row of database_instance_pool, with the columns the insert of writePoolInstances
names. -/
structure DatabaseInstancePoolRow where
  hostname : String
  port : Int
  pool : String
  registered_at : Int
deriving DecidableEq, Repr

/-- Row of cluster_alias, with the columns the query of ReadClusterPoolInstances reads;
alias_ is the column alias, a reserved word here. -/
structure ClusterAliasRow where
  cluster_name : String
  alias_ : String
deriving DecidableEq, Repr

/-- The backend database and the little process state around it. -/
structure World where
  hostname_resolve : List ResolveRow := []
  hostname_resolve_history : List ResolveRow := []
  hostname_unresolve : List UnresolveRow := []
  hostname_unresolve_history : List UnresolveRow := []
  database_instance : List DatabaseInstanceRow := []
  database_instance_pool : List DatabaseInstancePoolRow := []
  cluster_alias : List ClusterAliasRow := []
  now : Int := 0
  serialized : Bool := false
  executed : List Issued := []
deriving DecidableEq, Repr

/-- At most one row per hostname (the unique key of hostname_resolve). -/
def UniqueHostnames (rows : List ResolveRow) : Prop :=
  (rows.map (·.hostname)).Nodup

/-- At most one row per hostname (the unique key of hostname_unresolve). -/
def UniqueUnresolveHostnames (rows : List UnresolveRow) : Prop :=
  (rows.map (·.hostname)).Nodup

/-- Modelled from the spec: the schema of hostname_resolve_history (go/db) is not among the
sources; the spec keys the history by the resolved hostname.  At most one row per resolved
hostname. -/
def UniqueResolvedHostnames (rows : List ResolveRow) : Prop :=
  (rows.map (·.resolved_hostname)).Nodup

instance (rows : List ResolveRow) : Decidable (UniqueResolvedHostnames rows) := by
  unfold UniqueResolvedHostnames; infer_instance

instance (rows : List ResolveRow) : Decidable (UniqueHostnames rows) := by
  unfold UniqueHostnames; infer_instance

instance (rows : List UnresolveRow) : Decidable (UniqueUnresolveHostnames rows) := by
  unfold UniqueUnresolveHostnames; infer_instance

/-! ## The SQL statements, as functions on tables -/

/-- SQL of WriteResolvedHostname, first statement:
insert into hostname_resolve (hostname, resolved_hostname, resolved_timestamp)
values (?, ?, NOW()) on duplicate key update resolved_hostname = VALUES(resolved_hostname),
resolved_timestamp = VALUES(resolved_timestamp). -/
def sqlInsertHostnameResolve (hostname resolvedHostname : String) (now : Int)
    (rows : List ResolveRow) : List ResolveRow :=
  if rows.any (fun x => x.hostname = hostname) then
    rows.map (fun x =>
      if x.hostname = hostname then
        { x with resolved_hostname := resolvedHostname, resolved_timestamp := now }
      else x)
  else rows ++ [⟨hostname, resolvedHostname, now⟩]

/-- Modelled from the spec: the schema of hostname_resolve_history (go/db) is not among the
sources; the spec keys the history by the resolved hostname (a later write with the same
resolvedHostname coalesces the hostname field forward).  SQL of WriteResolvedHostname,
second statement: insert ... values (?, ?, NOW()) on duplicate key update
hostname = if(values(hostname) != resolved_hostname, values(hostname), hostname),
resolved_timestamp = values(resolved_timestamp). -/
def sqlInsertHostnameResolveHistory (hostname resolvedHostname : String) (now : Int)
    (rows : List ResolveRow) : List ResolveRow :=
  if rows.any (fun x => x.resolved_hostname = resolvedHostname) then
    rows.map (fun x =>
      if x.resolved_hostname = resolvedHostname then
        { x with
          hostname := if hostname ≠ x.resolved_hostname then hostname else x.hostname,
          resolved_timestamp := now }
      else x)
  else rows ++ [⟨hostname, resolvedHostname, now⟩]

/-- SQL of WriteHostnameUnresolve, first statement:
insert into hostname_unresolve (hostname, unresolved_hostname, last_registered)
values (?, ?, NOW()) on duplicate key update unresolved_hostname = values(unresolved_hostname),
last_registered = now(). -/
def sqlInsertHostnameUnresolve (hostname unresolvedHostname : String) (now : Int)
    (rows : List UnresolveRow) : List UnresolveRow :=
  if rows.any (fun x => x.hostname = hostname) then
    rows.map (fun x =>
      if x.hostname = hostname then
        { x with unresolved_hostname := unresolvedHostname, last_registered := now }
      else x)
  else rows ++ [⟨hostname, unresolvedHostname, now⟩]

/-- Modelled from the spec: the schema of hostname_unresolve_history (go/db) is not among
the sources; the spec says one row is written, replaced not upserted, per write call.  The
row replaced is taken to be the one with the same unresolved hostname.  SQL of
WriteHostnameUnresolve, second statement: replace into hostname_unresolve_history
(hostname, unresolved_hostname, last_registered) values (?, ?, NOW()). -/
def sqlReplaceHostnameUnresolveHistory (hostname unresolvedHostname : String) (now : Int)
    (rows : List UnresolveRow) : List UnresolveRow :=
  rows.filter (fun x => x.unresolved_hostname ≠ unresolvedHostname)
    ++ [⟨hostname, unresolvedHostname, now⟩]

/-- SQL of DeregisterHostnameUnresolve: delete from hostname_unresolve where hostname = ?. -/
def sqlDeleteHostnameUnresolve (hostname : String) (rows : List UnresolveRow) :
    List UnresolveRow :=
  rows.filter (fun x => ¬ (x.hostname = hostname))

/-- The where clause of ExpireHostnameUnresolve:
last_registered < NOW() - INTERVAL ? MINUTE. -/
def unresolveExpired (minutes now lastRegistered : Int) : Bool :=
  lastRegistered < now - 60 * minutes

/-- The where clause of ForgetExpiredHostnameResolves:
resolved_timestamp < NOW() - interval (? * 2) minute. -/
def resolveExpired (minutes now resolvedTimestamp : Int) : Bool :=
  resolvedTimestamp < now - 60 * (minutes * 2)

/-- SQL of ExpireHostnameUnresolve: delete from hostname_unresolve where
last_registered < NOW() - INTERVAL ? MINUTE. -/
def sqlExpireHostnameUnresolve (minutes now : Int) (rows : List UnresolveRow) :
    List UnresolveRow :=
  rows.filter (fun x => ¬ unresolveExpired minutes now x.last_registered)

/-- SQL of ForgetExpiredHostnameResolves: delete from hostname_resolve where
resolved_timestamp < NOW() - interval (? * 2) minute. -/
def sqlForgetHostnameResolves (minutes now : Int) (rows : List ResolveRow) :
    List ResolveRow :=
  rows.filter (fun x => ¬ resolveExpired minutes now x.resolved_timestamp)

/-- SQL of the loop of DeleteInvalidHostnameResolves:
delete from hostname_resolve where hostname = ?. -/
def sqlDeleteHostnameResolve (hostname : String) (rows : List ResolveRow) :
    List ResolveRow :=
  rows.filter (fun x => ¬ (x.hostname = hostname))

/-- SQL of the query of DeleteInvalidHostnameResolves: select early.hostname from
hostname_resolve as latest join hostname_resolve early on
(latest.resolved_hostname = early.hostname and latest.hostname = early.resolved_hostname)
where latest.hostname != latest.resolved_hostname
and latest.resolved_timestamp > early.resolved_timestamp. -/
def sqlSelectInvalidHostnames (rows : List ResolveRow) : List String :=
  rows.flatMap (fun latest =>
    (rows.filter (fun early =>
      latest.resolved_hostname = early.hostname ∧ latest.hostname = early.resolved_hostname
        ∧ latest.hostname ≠ latest.resolved_hostname
        ∧ latest.resolved_timestamp > early.resolved_timestamp)).map (·.hostname))

/-- SQL of ReadResolvedHostname: select resolved_hostname from hostname_resolve
where hostname = ?. -/
def sqlSelectResolvedHostname (hostname : String) (rows : List ResolveRow) : List String :=
  (rows.filter (fun x => x.hostname = hostname)).map (·.resolved_hostname)

/-- SQL of readUnresolvedHostname: select unresolved_hostname from hostname_unresolve
where hostname = ?. -/
def sqlSelectUnresolvedHostname (hostname : String) (rows : List UnresolveRow) :
    List String :=
  (rows.filter (fun x => x.hostname = hostname)).map (·.unresolved_hostname)

/-- SQL of readAllHostnameResolves: select hostname, resolved_hostname from
hostname_resolve. -/
def sqlSelectAllHostnameResolves (rows : List ResolveRow) : List (String × String) :=
  rows.map (fun x => (x.hostname, x.resolved_hostname))

/-- The from, join and where clauses of the query of readMissingKeysToResolve:
from database_instance join hostname_unresolve on
(database_instance.hostname = hostname_unresolve.hostname) left join hostname_resolve on
(database_instance.hostname = hostname_resolve.resolved_hostname)
where hostname_resolve.hostname is null.  The left join leaves a row with a null
hostname_resolve side exactly for the pairs that no row of hostname_resolve matches. -/
def sqlJoinMissingKeys (instances : List DatabaseInstanceRow) (unresolves : List UnresolveRow)
    (resolves : List ResolveRow) : List (DatabaseInstanceRow × UnresolveRow) :=
  instances.flatMap (fun database_instance =>
    ((unresolves.filter (fun hostname_unresolve =>
        database_instance.hostname = hostname_unresolve.hostname)).filter
      (fun _ => ¬ resolves.any (fun hostname_resolve =>
        database_instance.hostname = hostname_resolve.resolved_hostname))).map
      (fun hostname_unresolve => (database_instance, hostname_unresolve)))

/-- SQL of readMissingKeysToResolve: select hostname_unresolve.unresolved_hostname,
database_instance.port over the rows of sqlJoinMissingKeys. -/
def sqlSelectMissingKeys (instances : List DatabaseInstanceRow)
    (unresolves : List UnresolveRow) (resolves : List ResolveRow) : List (String × Int) :=
  (sqlJoinMissingKeys instances unresolves resolves).map
    (fun p => (p.2.unresolved_hostname, p.1.port))

/-- The effect of a statement that the store carries out. -/
def Stmt.apply (w : World) : Stmt → World
  | .insertHostnameResolve h r =>
      { w with hostname_resolve := sqlInsertHostnameResolve h r w.now w.hostname_resolve }
  | .insertHostnameResolveHistory h r =>
      { w with hostname_resolve_history :=
          sqlInsertHostnameResolveHistory h r w.now w.hostname_resolve_history }
  | .insertHostnameUnresolve h u =>
      { w with hostname_unresolve := sqlInsertHostnameUnresolve h u w.now w.hostname_unresolve }
  | .replaceHostnameUnresolveHistory h u =>
      { w with hostname_unresolve_history :=
          sqlReplaceHostnameUnresolveHistory h u w.now w.hostname_unresolve_history }
  | .deleteHostnameUnresolve h =>
      { w with hostname_unresolve := sqlDeleteHostnameUnresolve h w.hostname_unresolve }
  | .expireHostnameUnresolve m =>
      { w with hostname_unresolve := sqlExpireHostnameUnresolve m w.now w.hostname_unresolve }
  | .forgetHostnameResolves m =>
      { w with hostname_resolve := sqlForgetHostnameResolves m w.now w.hostname_resolve }
  | .deleteHostnameResolve h =>
      { w with hostname_resolve := sqlDeleteHostnameResolve h w.hostname_resolve }
  | .deleteAllHostnameResolves =>
      { w with hostname_resolve := [] }

/-- How a query goes wrong, if it does: some (k, e) delivers at most the first k rows to
the callback and then fails with e; none runs to completion. -/
abbrev QueryFault := Option (Nat × String)

namespace db

/-- Modelled from the spec: db.ExecOrchestrator (go/db) is not among the sources; the spec
asks of the persistent store upsert on a unique key, delete by predicate and server-side
timestamps.  The statement is recorded, and either fails with the given fault, changing no
table, or takes effect. -/
def ExecOrchestrator (stmt : Stmt) (fault : GoError) (w : World) : World × GoError :=
  let w1 : World := { w with executed := w.executed ++ [⟨stmt, w.serialized⟩] }
  match fault with
  | some e => (w1, some e)
  | none => (stmt.apply w1, none)

/-- Modelled from the spec: db.QueryOrchestrator and db.QueryOrchestratorRowsMap (go/db) are
not among the sources; the spec asks of the persistent store a keyed select and a
self-join style predicate read.  The callback is run on each row of the result in turn;
a failing query stops after the rows it delivered and returns its error. -/
def QueryOrchestrator {α σ : Type} (rows : List α) (fault : QueryFault)
    (on_row : σ → α → σ) (init : σ) : σ × GoError :=
  match fault with
  | none => (rows.foldl on_row init, none)
  | some (k, e) => ((rows.take k).foldl on_row init, some e)

end db

/-- Modelled from the spec: ExecDBWriteFunc (go/inst) is not among the sources; the spec
describes the write serializer as accepting a unit of work, running it under bounded
concurrency and returning the wrapped operation's own success or failure. -/
def ExecDBWriteFunc (f : World → World × GoError) (w : World) : World × GoError :=
  let r := f { w with serialized := true }
  ({ r.1 with serialized := w.serialized }, r.2)

/-! ## The functions of resolve_dao.go -/

/-- WriteResolvedHostname stores a hostname and the resolved hostname to backend database.
upsertFault and historyFault decide whether its first and second statement fail. -/
def WriteResolvedHostname (hostname resolvedHostname : String)
    (upsertFault historyFault : GoError) (w : World) : World × GoError :=
  let writeFunc : World → World × GoError := fun w =>
    let r := db.ExecOrchestrator (.insertHostnameResolve hostname resolvedHostname) upsertFault w
    if r.2.isSome then
      (r.1, log.Errorf ("failed to insert " ++ hostname ++ " into hostname_resolve: "
        ++ fmtError r.2))
    else if hostname ≠ resolvedHostname then
      -- history is only interesting when there is actually something to resolve;
      -- a failure of this statement is logged and not returned
      let r2 := db.ExecOrchestrator (.insertHostnameResolveHistory hostname resolvedHostname)
        historyFault r.1
      (r2.1, none)
    else
      (r.1, none)
  ExecDBWriteFunc writeFunc w

/-- ReadResolvedHostname returns the resolved hostname given a hostname, or empty if not
exists. -/
def ReadResolvedHostname (hostname : String) (fault : QueryFault) (w : World) :
    String × GoError :=
  let resolvedHostname : String := ""
  let r := db.QueryOrchestrator (sqlSelectResolvedHostname hostname w.hostname_resolve) fault
    (fun _ m => m) resolvedHostname
  (r.1, r.2)

/-- The function readUnresolvedHostname reverse-reads hostname resolve: the unresolved
hostname stored for the given hostname or, when none is found, the given hostname. -/
def readUnresolvedHostname (hostname : String) (fault : QueryFault) (w : World) :
    String × GoError :=
  let unresolvedHostname : String := hostname
  let r := db.QueryOrchestrator (sqlSelectUnresolvedHostname hostname w.hostname_unresolve) fault
    (fun _ m => m) unresolvedHostname
  (r.1, r.2)

/-- WriteHostnameUnresolve upserts an entry in hostname_unresolve.  The outcome of the
second statement (the history) is overwritten by the return nil that follows it. -/
def WriteHostnameUnresolve (instanceKey : InstanceKey) (unresolvedHostname : String)
    (upsertFault historyFault : GoError) (w : World) : World × GoError :=
  let writeFunc : World → World × GoError := fun w =>
    let r := db.ExecOrchestrator
      (.insertHostnameUnresolve instanceKey.Hostname unresolvedHostname) upsertFault w
    if r.2.isSome then
      (r.1, log.Errore r.2)
    else
      let r2 := db.ExecOrchestrator
        (.replaceHostnameUnresolveHistory instanceKey.Hostname unresolvedHostname)
        historyFault r.1
      (r2.1, none)
  ExecDBWriteFunc writeFunc w

/-- DeregisterHostnameUnresolve removes an unresolve entry. -/
def DeregisterHostnameUnresolve (instanceKey : InstanceKey) (fault : GoError) (w : World) :
    World × GoError :=
  let writeFunc : World → World × GoError := fun w =>
    let r := db.ExecOrchestrator (.deleteHostnameUnresolve instanceKey.Hostname) fault w
    (r.1, log.Errore r.2)
  ExecDBWriteFunc writeFunc w

/-- ExpireHostnameUnresolve expires hostname_unresolve entries that have not been updated
recently.  Its unit of work returns log.Errorf of the statement's outcome. -/
def ExpireHostnameUnresolve (cfg : Configuration) (fault : GoError) (w : World) :
    World × GoError :=
  let writeFunc : World → World × GoError := fun w =>
    let r := db.ExecOrchestrator (.expireHostnameUnresolve cfg.ExpiryHostnameResolvesMinutes)
      fault w
    (r.1, log.Errorf ("ExpireHostnameUnresolve: " ++ fmtError r.2))
  ExecDBWriteFunc writeFunc w

/-- ForgetExpiredHostnameResolves: one delete statement, handed to the store directly. -/
def ForgetExpiredHostnameResolves (cfg : Configuration) (fault : GoError) (w : World) :
    World × GoError :=
  db.ExecOrchestrator (.forgetHostnameResolves cfg.ExpiryHostnameResolvesMinutes) fault w

/-- The loop of DeleteInvalidHostnameResolves over invalidHostnames: one delete per
hostname; err is overwritten by every delete, a failure is logged and the loop goes on.
The faults are consumed one per delete, and a delete past their end succeeds. -/
def deleteInvalidLoop : List String → List GoError → World × GoError → World × GoError
  | [], _, acc => acc
  | invalidHostname :: rest, faults, acc =>
      deleteInvalidLoop rest faults.tail
        (db.ExecOrchestrator (.deleteHostnameResolve invalidHostname) faults.head?.join acc.1)

/-- DeleteInvalidHostnameResolves removes invalid resolves: infinite loop resolves
(A->B and B->A), of which it removes the earlier mapping. -/
def DeleteInvalidHostnameResolves (queryFault : QueryFault) (deleteFaults : List GoError)
    (w : World) : World × GoError :=
  let q := db.QueryOrchestrator (sqlSelectInvalidHostnames w.hostname_resolve) queryFault
    (fun (acc : List String) m => acc ++ [m]) []
  if q.2.isSome then
    (w, q.2)
  else
    deleteInvalidLoop q.1 deleteFaults (w, q.2)

/-- Modelled from the spec: the struct HostnameResolve (go/inst) is not among the sources;
readAllHostnameResolves fills its fields hostname and resolvedHostname, the pairs of the
snapshot the spec describes. -/
structure HostnameResolve where
  hostname : String
  resolvedHostname : String
deriving DecidableEq, Repr

/-- The function readAllHostnameResolves: every row of hostname_resolve, as a slice. -/
def readAllHostnameResolves (fault : QueryFault) (w : World) :
    List HostnameResolve × GoError :=
  let res : List HostnameResolve := []
  let r := db.QueryOrchestrator (sqlSelectAllHostnameResolves w.hostname_resolve) fault
    (fun (res : List HostnameResolve) m =>
      let hostnameResolve : HostnameResolve := { hostname := m.1, resolvedHostname := m.2 }
      res ++ [hostnameResolve])
    res
  (r.1, r.2)

/-- Modelled from the spec: the type InstanceKeyMap (go/inst) is not among the sources; the
spec gives the result of the missing-keys read as a set of InstanceKey.  A set is the list
of its elements, each once. -/
abbrev InstanceKeyMap := List InstanceKey

/-- Modelled from the spec: AddKey of InstanceKeyMap, not among the sources: adds one key
to the set. -/
def InstanceKeyMap.AddKey (this : InstanceKeyMap) (key : InstanceKey) : InstanceKeyMap :=
  if key ∈ this then this else this ++ [key]

/-- The function readMissingKeysToResolve gets those (unresolved, e.g. VIP) hostnames that
should be present in the hostname_resolve table, but are not. -/
def readMissingKeysToResolve (fault : QueryFault) (w : World) : InstanceKeyMap × GoError :=
  let result : InstanceKeyMap := []
  let r := db.QueryOrchestrator
    (sqlSelectMissingKeys w.database_instance w.hostname_unresolve w.hostname_resolve) fault
    (fun (result : InstanceKeyMap) m =>
      let instanceKey : InstanceKey := { Hostname := m.1, Port := m.2 }
      result.AddKey instanceKey)
    result
  (r.1, r.2)

/-- The function deleteHostnameResolves completely erases the database cache. -/
def deleteHostnameResolves (fault : GoError) (w : World) : World × GoError :=
  db.ExecOrchestrator .deleteAllHostnameResolves fault w

/-! ## The functions of pool_dao.go -/

/-- SQL of writePoolInstances, first statement:
delete from database_instance_pool where pool = ?. -/
def sqlDeletePool (pool : String) (rows : List DatabaseInstancePoolRow) :
    List DatabaseInstancePoolRow :=
  rows.filter (fun x => ¬ (x.pool = pool))

/-- SQL of writePoolInstances, second statement: insert into database_instance_pool
(hostname, port, pool, registered_at) values (?, ?, ?, now()). -/
def sqlInsertPoolInstance (hostname : String) (port : Int) (pool : String) (now : Int)
    (rows : List DatabaseInstancePoolRow) : List DatabaseInstancePoolRow :=
  rows ++ [⟨hostname, port, pool, now⟩]

/-- What the calls made by the unit of work of writePoolInstances meet, one field per call
that returns an error: db.OpenOrchestrator, db.Begin, the two tx.Prepare, the stmt.Exec of
the delete, the stmt.Exec of each insert (one fault per insert, an insert past their end
succeeds; a duplicate key is one such failure) and tx.Commit. -/
structure PoolWriteFaults where
  openOrchestrator : GoError := none
  beginTx : GoError := none
  prepareDelete : GoError := none
  execDelete : GoError := none
  prepareInsert : GoError := none
  execInsert : List GoError := []
  commit : GoError := none
deriving DecidableEq, Repr

/-- The loop of writePoolInstances over instanceKeys, on the rows as the transaction sees
them: one insert per key; the first failing insert ends the loop with its error. -/
def writePoolInstances.insertLoop (pool : String) (now : Int) :
    List InstanceKey → List GoError → List DatabaseInstancePoolRow →
      Except String (List DatabaseInstancePoolRow)
  | [], _, tx => .ok tx
  | instanceKey :: rest, faults, tx =>
      match faults.head?.join with
      | some err => .error err
      | none =>
          writePoolInstances.insertLoop pool now rest faults.tail
            (sqlInsertPoolInstance instanceKey.Hostname instanceKey.Port pool now tx)

/-- The unit of work of writePoolInstances.  The statements run in a transaction: the table
changes only when tx.Commit takes effect, and tx.Rollback, or a commit that fails, leaves it
as it was.  The result none stands for a Go runtime panic: after a failed db.Begin or
tx.Prepare the source goes on to call a method of the nil transaction or statement. -/
def writePoolInstances.writeFunc (pool : String) (instanceKeys : List InstanceKey)
    (faults : PoolWriteFaults) (w : World) : Option (World × GoError) :=
  if faults.openOrchestrator.isSome then
    some (w, log.Errore faults.openOrchestrator)
  else if faults.beginTx.isSome then
    -- tx is nil and its error is overwritten unread; tx.Prepare dereferences tx
    none
  else if faults.prepareDelete.isSome then
    -- stmt is nil and its error is overwritten unread; stmt.Exec dereferences stmt
    none
  else if faults.execDelete.isSome then
    -- tx.Rollback()
    some (w, log.Errore faults.execDelete)
  else
    let tx := sqlDeletePool pool w.database_instance_pool
    match faults.prepareInsert, instanceKeys with
    | some _, _ :: _ =>
        -- stmt is nil; the first stmt.Exec of the loop dereferences it
        none
    | some err, [] =>
        -- the loop body never runs; the check after the loop reads the error of tx.Prepare
        some (w, log.Errore (some err))
    | none, _ =>
        match writePoolInstances.insertLoop pool w.now instanceKeys faults.execInsert tx with
        | .error err =>
            -- tx.Rollback()
            some (w, log.Errore (some err))
        | .ok rows =>
            -- tx.Commit(), its result dropped; then return nil
            if faults.commit.isSome then some (w, none)
            else some ({ w with database_instance_pool := rows }, none)

/-- The function writePoolInstances will write (and override) a single cluster name
mapping.  The result none is a panic of the unit of work, which this call does not
recover from; otherwise the result is what ExecDBWriteFunc returns for the unit of work. -/
def writePoolInstances (pool : String) (instanceKeys : List InstanceKey)
    (faults : PoolWriteFaults) (w : World) : Option (World × GoError) :=
  match writePoolInstances.writeFunc pool instanceKeys faults { w with serialized := true } with
  | none => none
  | some _ =>
      some (ExecDBWriteFunc
        (fun w1 => (writePoolInstances.writeFunc pool instanceKeys faults w1).getD (w1, none)) w)

/-- The struct ClusterPoolInstance, declared in go/inst outside the sources at hand, with
the fields the struct literal of ReadClusterPoolInstances fills. -/
structure ClusterPoolInstance where
  ClusterName : String
  ClusterAlias : String
  Pool : String
  Hostname : String
  Port : Int
deriving DecidableEq, Repr

/-- SQL of ReadClusterPoolInstances: select cluster_name, ifnull(alias, cluster_name) as
alias, database_instance_pool.* from database_instance join database_instance_pool using
(hostname, port) left join cluster_alias using (cluster_name), followed by the where
clause when there is one: where database_instance.cluster_name = ? and ? in ('', pool),
given here by its two arguments.  The rows are given as the columns the callback reads:
cluster_name, alias, pool, hostname, port. -/
def sqlSelectClusterPoolInstances (whereClause : Option (String × String))
    (instances : List DatabaseInstanceRow) (pools : List DatabaseInstancePoolRow)
    (aliases : List ClusterAliasRow) : List ClusterPoolInstance :=
  instances.flatMap (fun database_instance =>
    (pools.filter (fun database_instance_pool =>
        database_instance.hostname = database_instance_pool.hostname
          ∧ database_instance.port = database_instance_pool.port)).flatMap
      (fun database_instance_pool =>
        let matching := aliases.filter (fun cluster_alias =>
          database_instance.cluster_name = cluster_alias.cluster_name)
        let joined : List (Option String) :=
          if matching.isEmpty then [none] else matching.map (fun cluster_alias =>
            some cluster_alias.alias_)
        (joined.filter (fun _ =>
          match whereClause with
          | none => true
          | some (clusterName, pool) =>
              database_instance.cluster_name = clusterName
                ∧ (pool = "" ∨ pool = database_instance_pool.pool))).map
          (fun aliasColumn =>
            { ClusterName := database_instance.cluster_name
              ClusterAlias := aliasColumn.getD database_instance.cluster_name
              Pool := database_instance_pool.pool
              Hostname := database_instance_pool.hostname
              Port := database_instance_pool.port })))

/-- ReadClusterPoolInstances reads cluster-pool-instance associations for given cluster and
pool.  The where clause is built only when clusterName is not empty. -/
def ReadClusterPoolInstances (clusterName pool : String) (fault : QueryFault) (w : World) :
    List ClusterPoolInstance × GoError :=
  let whereClause : Option (String × String) :=
    if clusterName ≠ "" then some (clusterName, pool) else none
  let r := db.QueryOrchestrator
    (sqlSelectClusterPoolInstances whereClause w.database_instance w.database_instance_pool
      w.cluster_alias) fault
    (fun (result : List ClusterPoolInstance) clusterPoolInstance =>
      result ++ [clusterPoolInstance]) []
  if r.2.isSome then ([], r.2) else (r.1, none)

/-- ReadAllClusterPoolInstances returns all clusters-pools-instances associations. -/
def ReadAllClusterPoolInstances (fault : QueryFault) (w : World) :
    List ClusterPoolInstance × GoError :=
  ReadClusterPoolInstances "" "" fault w

/-- The type PoolInstancesMap, declared in go/inst outside the sources at hand: a Go map
from pool name to a slice of instance keys, as ReadClusterPoolInstancesMap uses it.  The
map is the list of its entries, one per pool name. -/
abbrev PoolInstancesMap := List (String × List InstanceKey)

/-- One turn of the loop of ReadClusterPoolInstancesMap: an empty slice is stored for a new
pool name, and the instance key is appended to the slice of its pool. -/
def PoolInstancesMap.add (poolInstancesMap : PoolInstancesMap)
    (clusterPoolInstance : ClusterPoolInstance) : PoolInstancesMap :=
  let withPool : PoolInstancesMap :=
    if poolInstancesMap.any (fun e => e.1 = clusterPoolInstance.Pool) then poolInstancesMap
    else poolInstancesMap ++ [(clusterPoolInstance.Pool, [])]
  withPool.map (fun e =>
    if e.1 = clusterPoolInstance.Pool then
      (e.1, e.2 ++ [{ Hostname := clusterPoolInstance.Hostname,
                      Port := clusterPoolInstance.Port }])
    else e)

/-- ReadClusterPoolInstancesMap returns association of pools-to-instances for a given
cluster and potentially for a given pool.  The map is none for the nil pointer, returned
together with a nil error when the read fails. -/
def ReadClusterPoolInstancesMap (clusterName pool : String) (fault : QueryFault) (w : World) :
    Option PoolInstancesMap × GoError :=
  let poolInstancesMap : PoolInstancesMap := []
  let r := ReadClusterPoolInstances clusterName pool fault w
  if r.2.isSome then
    (none, none)
  else
    (some (r.1.foldl PoolInstancesMap.add poolInstancesMap), none)

/-! ## Sequences of calls -/

/-- One call of WriteResolvedHostname: its arguments, the store clock when it runs, and
whether its two statements fail. -/
structure WriteResolvedCall where
  hostname : String
  resolvedHostname : String
  now : Int
  upsertFault : GoError
  historyFault : GoError
deriving DecidableEq, Repr

/-- A finite sequence of WriteResolvedHostname calls, run in order; the final world and the
value each call returned. -/
def runWriteResolved : List WriteResolvedCall → World → World × List GoError
  | [], w => (w, [])
  | c :: cs, w =>
      let r := WriteResolvedHostname c.hostname c.resolvedHostname c.upsertFault c.historyFault
        { w with now := c.now }
      let rest := runWriteResolved cs r.1
      (rest.1, r.2 :: rest.2)

/-- The resolvedHostname argument of the most recent successful call for a hostname: the
last of the calls, paired with what they returned, that were made for this hostname and
returned nil. -/
def mostRecentSuccessfulWrite (hostname : String) (calls : List WriteResolvedCall)
    (results : List GoError) : Option String :=
  (((calls.zip results).filter
      (fun p => p.1.hostname = hostname ∧ p.2 = none)).getLast?).map (·.1.resolvedHostname)

/-! ## Observations used to state properties -/

/-- The tables of the resolution cache. -/
inductive Table where
  | hostname_resolve
  | hostname_resolve_history
  | hostname_unresolve
  | hostname_unresolve_history
deriving DecidableEq, Repr

/-- The table a statement writes to. -/
def Stmt.table : Stmt → Table
  | .insertHostnameResolve _ _ => .hostname_resolve
  | .insertHostnameResolveHistory _ _ => .hostname_resolve_history
  | .insertHostnameUnresolve _ _ => .hostname_unresolve
  | .replaceHostnameUnresolveHistory _ _ => .hostname_unresolve_history
  | .deleteHostnameUnresolve _ => .hostname_unresolve
  | .expireHostnameUnresolve _ => .hostname_unresolve
  | .forgetHostnameResolves _ => .hostname_resolve
  | .deleteHostnameResolve _ => .hostname_resolve
  | .deleteAllHostnameResolves => .hostname_resolve

/-- The statements a call handed to the store: what executed holds after the call beyond
what it held before. -/
def issuedBy (before after : World) : List Issued :=
  after.executed.drop before.executed.length

/-- Whether one of the statements is on the given table. -/
def touches (table : Table) (issued : List Issued) : Bool :=
  issued.any (fun i => i.stmt.table = table)

/-- The column last_registered of the rows of hostname_unresolve keyed by a hostname. -/
def sqlSelectLastRegistered (hostname : String) (rows : List UnresolveRow) : List Int :=
  (rows.filter (fun x => x.hostname = hostname)).map (·.last_registered)

/-- Every timestamp held by the forward and by the reverse store is not later than the store
clock.  The two stores only hold timestamps that a statement wrote as NOW(), and the sweeps
compare them with NOW() of the same store. -/
def TimestampsNotAfterNow (w : World) : Prop :=
  (∀ x ∈ w.hostname_resolve, x.resolved_timestamp ≤ w.now)
    ∧ (∀ x ∈ w.hostname_unresolve, x.last_registered ≤ w.now)

instance (w : World) : Decidable (TimestampsNotAfterNow w) := by
  unfold TimestampsNotAfterNow; infer_instance

/-! ## Client certificate verification (go/ssl/ssl.go) -/

namespace strings

/-- Whether the characters sub occur, in a row, somewhere in s. -/
def containsChars : List Char → List Char → Bool
  | [], sub => sub.isEmpty
  | c :: s, sub => sub.isPrefixOf (c :: s) || containsChars s sub

/-- Go library strings.Contains: reports whether substr is within s. -/
def Contains (s substr : String) : Bool :=
  containsChars s.toList substr.toList

end strings

namespace ssl

/-- Library crypto/x509/pkix, Name: of a certificate subject, the organizational units. -/
structure Name where
  OrganizationalUnit : List String
deriving DecidableEq, Repr

/-- Library crypto/x509, Certificate: of a certificate, its subject. -/
structure Certificate where
  Subject : Name
deriving DecidableEq, Repr

/-- One element of VerifiedChains.  A verified chain starts with the leaf certificate, which
the source reads as chain[0]; the certificates after it are rest. -/
structure Chain where
  leaf : Certificate
  rest : List Certificate := []
deriving DecidableEq, Repr

/-- Library crypto/tls, ConnectionState: the verified certificate chains. -/
structure ConnectionState where
  VerifiedChains : List Chain
deriving DecidableEq, Repr

/-- Library net/http, Request: the text of its URL (r.URL.String()) and its TLS state,
none for the nil pointer. -/
structure Request where
  URL : String
  TLS : Option ConnectionState
deriving DecidableEq, Repr

/-- HasString determines if a string element is in a string array. -/
def HasString (elem : String) : List String → Bool
  | [] => false
  | s :: arr => if s = elem then true else HasString elem arr

/-- The inner loop of Verify, over the organizational units s of one leaf certificate:
true when it reaches return nil. -/
def Verify.loopOUs (validOUs : List String) : List String → Bool
  | [] => false
  | ou :: s => if HasString ou validOUs then true else Verify.loopOUs validOUs s

/-- The outer loop of Verify, over r.TLS.VerifiedChains: true when it reaches return nil. -/
def Verify.loopChains (validOUs : List String) : List Chain → Bool
  | [] => false
  | chain :: chains =>
      if Verify.loopOUs validOUs chain.leaf.Subject.OrganizationalUnit then true
      else Verify.loopChains validOUs chains

/-- Verify that the OU of the presented client certificate matches the list of valid OUs. -/
def Verify (cfg : Configuration) (r : Request) (validOUs : List String) : GoError :=
  if strings.Contains r.URL cfg.StatusEndpoint && !cfg.StatusOUVerify then
    none
  else
    match r.TLS with
    | none => some "No TLS"
    | some tls =>
        if Verify.loopChains validOUs tls.VerifiedChains then none
        else some "Invalid OU"

end ssl

/-! ## Lemmas and theorems -/


theorem faults_head_none (faults : List GoError) (h : ∀ f ∈ faults, f = none) :
    faults.head?.join = none := by
  cases faults with
  | nil => rfl
  | cons f fs => simp [h f (by simp)]

theorem deleteInvalidLoop_hostname_resolve (hs : List String) :
    ∀ (faults : List GoError) (acc : World × GoError), (∀ f ∈ faults, f = none) →
      (deleteInvalidLoop hs faults acc).1.hostname_resolve
        = acc.1.hostname_resolve.filter (fun x => x.hostname ∉ hs) := by
  induction hs with
  | nil => intro faults acc _; simp [deleteInvalidLoop]
  | cons h rest ih =>
    intro faults acc hf
    have htail : ∀ f ∈ faults.tail, f = none := fun f hm => hf f (List.mem_of_mem_tail hm)
    rw [deleteInvalidLoop, ih _ _ htail, faults_head_none faults hf]
    simp [db.ExecOrchestrator, Stmt.apply, sqlDeleteHostnameResolve, List.filter_filter,
      Bool.and_comm]


theorem deleteInvalidLoop_result (hs : List String) :
    ∀ (faults : List GoError) (acc : World × GoError), (∀ f ∈ faults, f = none) →
      acc.2 = none → (deleteInvalidLoop hs faults acc).2 = none := by
  induction hs with
  | nil => intro faults acc _ h; simpa [deleteInvalidLoop] using h
  | cons h rest ih =>
    intro faults acc hf _
    have htail : ∀ f ∈ faults.tail, f = none := fun f hm => hf f (List.mem_of_mem_tail hm)
    rw [deleteInvalidLoop, faults_head_none faults hf]
    exact ih _ _ htail (by simp [db.ExecOrchestrator])

theorem foldl_append_singleton {α : Type} (l : List α) :
    ∀ init : List α, l.foldl (fun acc m => acc ++ [m]) init = init ++ l := by
  induction l with
  | nil => simp
  | cons a l ih => intro init; simp [ih]

theorem unique_row_of_hostname {rows : List ResolveRow} (hu : UniqueHostnames rows)
    {x y : ResolveRow} (hx : x ∈ rows) (hy : y ∈ rows) (h : x.hostname = y.hostname) :
    x = y :=
  List.inj_on_of_nodup_map hu hx hy h

theorem mem_sqlSelectInvalidHostnames {rows : List ResolveRow} {h : String} :
    h ∈ sqlSelectInvalidHostnames rows ↔
      ∃ latest ∈ rows, ∃ early ∈ rows,
        latest.resolved_hostname = early.hostname ∧ latest.hostname = early.resolved_hostname
          ∧ latest.hostname ≠ latest.resolved_hostname
          ∧ latest.resolved_timestamp > early.resolved_timestamp ∧ early.hostname = h := by
  simp [sqlSelectInvalidHostnames, List.mem_flatMap, and_assoc]

/-- C1. Cycle repair correctness: in a forward store with at most one row per hostname
that holds A->B at t1 and B->A at t2, with A and B different and t2 later than t1, a run of
DeleteInvalidHostnameResolves whose query and deletes all succeed leaves no row keyed A and
keeps the row B->A with its timestamp t2. -/
theorem DeleteInvalidHostnameResolves_repairs_cycle (w : World) (A B : String) (t1 t2 : Int)
    (deleteFaults : List GoError)
    (hunique : UniqueHostnames w.hostname_resolve)
    (hA : ⟨A, B, t1⟩ ∈ w.hostname_resolve) (hB : ⟨B, A, t2⟩ ∈ w.hostname_resolve)
    (hne : A ≠ B) (hlt : t2 > t1) (hok : ∀ f ∈ deleteFaults, f = none) :
    (DeleteInvalidHostnameResolves none deleteFaults w).2 = none
      ∧ A ∉ (DeleteInvalidHostnameResolves none deleteFaults w).1.hostname_resolve.map
          (·.hostname)
      ∧ ⟨B, A, t2⟩ ∈ (DeleteInvalidHostnameResolves none deleteFaults w).1.hostname_resolve := by
  have hres : (DeleteInvalidHostnameResolves none deleteFaults w).1.hostname_resolve
      = w.hostname_resolve.filter
          (fun x => x.hostname ∉ sqlSelectInvalidHostnames w.hostname_resolve) := by
    simp [DeleteInvalidHostnameResolves, db.QueryOrchestrator,
      deleteInvalidLoop_hostname_resolve _ _ _ hok, foldl_append_singleton]
  have herr : (DeleteInvalidHostnameResolves none deleteFaults w).2 = none := by
    simp [DeleteInvalidHostnameResolves, db.QueryOrchestrator,
      deleteInvalidLoop_result _ _ _ hok]
  rw [hres]
  have hAsel : A ∈ sqlSelectInvalidHostnames w.hostname_resolve :=
    mem_sqlSelectInvalidHostnames.2
      ⟨⟨B, A, t2⟩, hB, ⟨A, B, t1⟩, hA, rfl, rfl, fun h => hne h.symm, hlt, rfl⟩
  have hBsel : B ∉ sqlSelectInvalidHostnames w.hostname_resolve := by
    intro hmem
    obtain ⟨latest, hl, early, he, h1, h2, _, h4, h5⟩ := mem_sqlSelectInvalidHostnames.1 hmem
    have hearly : early = ⟨B, A, t2⟩ := unique_row_of_hostname hunique he hB h5
    subst hearly
    have hlatest : latest = ⟨A, B, t1⟩ := unique_row_of_hostname hunique hl hA h2
    subst hlatest
    simp only at h4
    omega
  refine ⟨herr, ?_, ?_⟩
  · intro hx
    obtain ⟨x, hx, hxa⟩ := List.mem_map.1 hx
    simp only [List.mem_filter, decide_eq_true_eq] at hx
    exact hx.2 (hxa ▸ hAsel)
  · simp only [List.mem_filter, decide_eq_true_eq]
    exact ⟨hB, hBsel⟩

/-- Witness of C1 on the store a->b at 1, b->a at 2. -/
theorem DeleteInvalidHostnameResolves_repairs_cycle_witness :
    (DeleteInvalidHostnameResolves none []
        { hostname_resolve := [⟨"a", "b", 1⟩, ⟨"b", "a", 2⟩] }).2 = none
      ∧ "a" ∉ (DeleteInvalidHostnameResolves none []
          { hostname_resolve := [⟨"a", "b", 1⟩, ⟨"b", "a", 2⟩] }).1.hostname_resolve.map
            (·.hostname)
      ∧ ⟨"b", "a", 2⟩ ∈ (DeleteInvalidHostnameResolves none []
          { hostname_resolve := [⟨"a", "b", 1⟩, ⟨"b", "a", 2⟩] }).1.hostname_resolve :=
  DeleteInvalidHostnameResolves_repairs_cycle
    { hostname_resolve := [⟨"a", "b", 1⟩, ⟨"b", "a", 2⟩] } "a" "b" 1 2 []
    (by decide) (by decide) (by decide) (by decide) (by decide) (by simp)

theorem WriteResolvedHostname_hostname_resolve (h r : String) (f1 f2 : GoError) (w : World) :
    (WriteResolvedHostname h r f1 f2 w).1.hostname_resolve =
      if f1 = none then sqlInsertHostnameResolve h r w.now w.hostname_resolve
      else w.hostname_resolve := by
  cases f1 <;> cases f2 <;> by_cases hr : h = r <;>
    simp [WriteResolvedHostname, ExecDBWriteFunc, db.ExecOrchestrator, Stmt.apply, hr]

theorem WriteResolvedHostname_result (h r : String) (f1 f2 : GoError) (w : World) :
    (WriteResolvedHostname h r f1 f2 w).2 = none ↔ f1 = none := by
  cases f1 <;> cases f2 <;> by_cases hr : h = r <;>
    simp [WriteResolvedHostname, ExecDBWriteFunc, db.ExecOrchestrator, log.Errorf, hr]

theorem sqlSelectResolvedHostname_eq_nil {h : String} {rows : List ResolveRow}
    (hn : h ∉ rows.map (·.hostname)) : sqlSelectResolvedHostname h rows = [] := by
  simp only [sqlSelectResolvedHostname, List.map_eq_nil_iff, List.filter_eq_nil_iff]
  intro x hx hxh
  exact hn (List.mem_map.2 ⟨x, hx, by simpa using hxh⟩)

theorem sqlInsertHostnameResolve_hostnames (h r : String) (now : Int) (rows : List ResolveRow) :
    (sqlInsertHostnameResolve h r now rows).map (·.hostname) =
      if h ∈ rows.map (·.hostname) then rows.map (·.hostname)
      else rows.map (·.hostname) ++ [h] := by
  unfold sqlInsertHostnameResolve
  by_cases hm : h ∈ rows.map (·.hostname)
  · have hany : (rows.any fun x => decide (x.hostname = h)) = true := by
      simpa [List.any_eq_true] using hm
    rw [if_pos hany, if_pos hm, List.map_map]
    apply List.map_congr_left
    intro x _
    by_cases hx : x.hostname = h <;> simp [hx]
  · have hany : ¬ (rows.any fun x => decide (x.hostname = h)) = true := by
      simpa [List.any_eq_true] using hm
    rw [if_neg hany, if_neg hm]
    simp

theorem sqlInsertHostnameResolve_unique (h r : String) (now : Int) {rows : List ResolveRow}
    (hu : UniqueHostnames rows) : UniqueHostnames (sqlInsertHostnameResolve h r now rows) := by
  unfold UniqueHostnames at *
  rw [sqlInsertHostnameResolve_hostnames]
  split
  · exact hu
  · rename_i hm
    exact List.Nodup.append hu (List.nodup_singleton h) (by simpa using hm)

theorem sqlSelectResolvedHostname_update_other {h h' : String} (r : String) (now : Int)
    (rows : List ResolveRow) (hne : h' ≠ h) :
    sqlSelectResolvedHostname h' (rows.map (fun x =>
        if x.hostname = h then
          { x with resolved_hostname := r, resolved_timestamp := now }
        else x))
      = sqlSelectResolvedHostname h' rows := by
  induction rows with
  | nil => rfl
  | cons x xs ih =>
    simp only [sqlSelectResolvedHostname] at ih ⊢
    by_cases hx : x.hostname = h
    · have hx2 : ¬ h = h' := fun e => hne e.symm
      simp [hx, hx2, ih]
    · by_cases hx2 : x.hostname = h' <;> simp [hx, hx2, hne, ih]

theorem sqlSelectResolvedHostname_update_self (h r : String) (now : Int)
    (rows : List ResolveRow) (hu : UniqueHostnames rows) (hm : h ∈ rows.map (·.hostname)) :
    sqlSelectResolvedHostname h (rows.map (fun x =>
        if x.hostname = h then
          { x with resolved_hostname := r, resolved_timestamp := now }
        else x)) = [r] := by
  induction rows with
  | nil => simp at hm
  | cons x xs ih =>
    have hu2 : (x.hostname ∉ xs.map (·.hostname)) ∧ UniqueHostnames xs := by
      simpa [UniqueHostnames] using hu
    by_cases hx : x.hostname = h
    · have hn : h ∉ (xs.map (fun x =>
          if x.hostname = h then
            { x with resolved_hostname := r, resolved_timestamp := now }
          else x)).map (·.hostname) := by
        rw [List.map_map]
        have : xs.map ((fun x => x.hostname) ∘ fun x =>
            if x.hostname = h then
              { x with resolved_hostname := r, resolved_timestamp := now }
            else x) = xs.map (·.hostname) := by
          apply List.map_congr_left
          intro y _
          by_cases hy : y.hostname = h <;> simp [hy]
        rw [this, ← hx]
        exact hu2.1
      have hnil := sqlSelectResolvedHostname_eq_nil hn
      simp only [sqlSelectResolvedHostname] at hnil ⊢
      simp [hx, hnil]
    · have hm2 : h ∈ xs.map (·.hostname) := by
        simp only [List.map_cons, List.mem_cons] at hm
        rcases hm with hm | hm
        · exact absurd hm.symm hx
        · exact hm
      have := ih hu2.2 hm2
      simp only [sqlSelectResolvedHostname] at this ⊢
      simp [hx, this]

theorem sqlSelectResolvedHostname_insert_self (h r : String) (now : Int)
    {rows : List ResolveRow} (hu : UniqueHostnames rows) :
    sqlSelectResolvedHostname h (sqlInsertHostnameResolve h r now rows) = [r] := by
  unfold sqlInsertHostnameResolve
  split
  · rename_i hany
    have hm : h ∈ rows.map (·.hostname) := by simpa [List.any_eq_true] using hany
    exact sqlSelectResolvedHostname_update_self h r now rows hu hm
  · rename_i hany
    have hn : h ∉ rows.map (·.hostname) := by simpa [List.any_eq_true] using hany
    have := sqlSelectResolvedHostname_eq_nil hn
    simp only [sqlSelectResolvedHostname] at this ⊢
    simp [List.filter_append, this]

theorem sqlSelectResolvedHostname_insert_other {h h' : String} (r : String) (now : Int)
    (rows : List ResolveRow) (hne : h' ≠ h) :
    sqlSelectResolvedHostname h' (sqlInsertHostnameResolve h r now rows)
      = sqlSelectResolvedHostname h' rows := by
  unfold sqlInsertHostnameResolve
  split
  · exact sqlSelectResolvedHostname_update_other r now rows hne
  · simp [sqlSelectResolvedHostname, List.filter_append, hne.symm]

theorem mostRecentSuccessfulWrite_cons (h : String) (c : WriteResolvedCall)
    (cs : List WriteResolvedCall) (e : GoError) (es : List GoError) :
    mostRecentSuccessfulWrite h (c :: cs) (e :: es) =
      match mostRecentSuccessfulWrite h cs es with
      | some r => some r
      | none => if c.hostname = h ∧ e = none then some c.resolvedHostname else none := by
  unfold mostRecentSuccessfulWrite
  rw [List.zip_cons_cons, List.filter_cons]
  by_cases hp : c.hostname = h ∧ e = none
  · rw [if_pos (by simpa using hp), List.getLast?_cons]
    generalize (List.filter _ (cs.zip es)).getLast? = o
    cases o <;> simp [hp]
  · rw [if_neg (by simpa using hp)]
    generalize (List.filter _ (cs.zip es)).getLast? = o
    cases o <;> simp [hp]

theorem runWriteResolved_select (calls : List WriteResolvedCall) :
    ∀ w : World, UniqueHostnames w.hostname_resolve →
      UniqueHostnames (runWriteResolved calls w).1.hostname_resolve ∧
      ∀ h, sqlSelectResolvedHostname h (runWriteResolved calls w).1.hostname_resolve =
        match mostRecentSuccessfulWrite h calls (runWriteResolved calls w).2 with
        | some r => [r]
        | none => sqlSelectResolvedHostname h w.hostname_resolve := by
  induction calls with
  | nil =>
    intro w hu
    exact ⟨hu, fun h => by simp [runWriteResolved, mostRecentSuccessfulWrite]⟩
  | cons c cs ih =>
    intro w hu
    have hstep := WriteResolvedHostname_hostname_resolve c.hostname c.resolvedHostname
      c.upsertFault c.historyFault { w with now := c.now }
    have hres := WriteResolvedHostname_result c.hostname c.resolvedHostname
      c.upsertFault c.historyFault { w with now := c.now }
    have hu1 : UniqueHostnames (WriteResolvedHostname c.hostname c.resolvedHostname
        c.upsertFault c.historyFault { w with now := c.now }).1.hostname_resolve := by
      rw [hstep]
      split
      · exact sqlInsertHostnameResolve_unique _ _ _ hu
      · exact hu
    obtain ⟨ihu, ihs⟩ := ih _ hu1
    refine ⟨by simpa [runWriteResolved] using ihu, fun h => ?_⟩
    simp only [runWriteResolved]
    rw [mostRecentSuccessfulWrite_cons, ihs h]
    cases hl : mostRecentSuccessfulWrite h cs (runWriteResolved cs (WriteResolvedHostname
      c.hostname c.resolvedHostname c.upsertFault c.historyFault
      { w with now := c.now }).1).2 with
    | some r => rfl
    | none =>
      simp only []
      rw [hstep]
      by_cases hf : c.upsertFault = none
      · have hr := hres.2 hf
        rw [if_pos hf]
        by_cases hh : c.hostname = h
        · rw [if_pos ⟨hh, hr⟩]
          subst hh
          exact sqlSelectResolvedHostname_insert_self _ _ _ hu
        · rw [if_neg (fun hc => hh hc.1)]
          exact sqlSelectResolvedHostname_insert_other _ _ _ (fun e => hh e.symm)
      · have hr : ¬ (WriteResolvedHostname c.hostname c.resolvedHostname
            c.upsertFault c.historyFault { w with now := c.now }).2 = none :=
          fun e => hf (hres.1 e)
        rw [if_neg hf, if_neg (fun hc => hr hc.2)]

/-- C2. Uniqueness and last-write-wins: starting from a forward store with at most one row
per hostname, after any finite sequence of WriteResolvedHostname calls (whatever the clock
and whichever statements fail) the store still has at most one row per hostname, and for
every hostname that some call of the sequence wrote successfully, the rows keyed by it are
exactly one, whose resolved hostname is the argument of the most recent successful call. -/
theorem WriteResolvedHostname_unique_last_write_wins (calls : List WriteResolvedCall)
    (w : World) (hunique : UniqueHostnames w.hostname_resolve) :
    UniqueHostnames (runWriteResolved calls w).1.hostname_resolve ∧
      ∀ h r, mostRecentSuccessfulWrite h calls (runWriteResolved calls w).2 = some r →
        sqlSelectResolvedHostname h (runWriteResolved calls w).1.hostname_resolve = [r] := by
  obtain ⟨hu, hs⟩ := runWriteResolved_select calls w hunique
  refine ⟨hu, fun h r hr => ?_⟩
  rw [hs h, hr]

/-- Witness of C2: three writes for a, the last of which fails. -/
theorem WriteResolvedHostname_unique_last_write_wins_witness :
    sqlSelectResolvedHostname "a"
      (runWriteResolved
        [⟨"a", "b", 1, none, none⟩, ⟨"a", "c", 2, none, some "down"⟩,
          ⟨"a", "d", 3, some "down", none⟩]
        { hostname_resolve := [⟨"a", "a", 0⟩] }).1.hostname_resolve = ["c"] :=
  (WriteResolvedHostname_unique_last_write_wins
    [⟨"a", "b", 1, none, none⟩, ⟨"a", "c", 2, none, some "down"⟩,
      ⟨"a", "d", 3, some "down", none⟩]
    { hostname_resolve := [⟨"a", "a", 0⟩] } (by decide)).2 "a" "c" (by decide)

theorem sqlSelectResolvedHostname_of_mem {h r : String} {ts : Int} {rows : List ResolveRow}
    (hu : UniqueHostnames rows) (hm : ⟨h, r, ts⟩ ∈ rows) :
    sqlSelectResolvedHostname h rows = [r] := by
  induction rows with
  | nil => simp at hm
  | cons y ys ih =>
    have hu2 : (y.hostname ∉ ys.map (·.hostname)) ∧ UniqueHostnames ys := by
      simpa [UniqueHostnames] using hu
    rcases List.mem_cons.1 hm with hy | hy
    · subst hy
      have hnil := sqlSelectResolvedHostname_eq_nil hu2.1
      simp only [sqlSelectResolvedHostname] at hnil ⊢
      simp [hnil]
    · have hne : ¬ y.hostname = h := by
        intro e
        exact hu2.1 (e ▸ List.mem_map.2 ⟨_, hy, rfl⟩)
      have := ih hu2.2 hy
      simp only [sqlSelectResolvedHostname] at this ⊢
      simp [hne, this]

/-- C3. Read miss is not an error: when the query succeeds, ReadResolvedHostname returns the
empty string and a nil error for a hostname that has no row in the forward store, and
returns r (and a nil error) for a hostname whose row in the store, which has at most one row
per hostname, is h->r. -/
theorem ReadResolvedHostname_miss_and_hit (w : World) (h : String) :
    (h ∉ w.hostname_resolve.map (·.hostname) → ReadResolvedHostname h none w = ("", none))
      ∧ ∀ (r : String) (ts : Int), UniqueHostnames w.hostname_resolve →
          ⟨h, r, ts⟩ ∈ w.hostname_resolve → ReadResolvedHostname h none w = (r, none) := by
  constructor
  · intro hn
    simp [ReadResolvedHostname, db.QueryOrchestrator, sqlSelectResolvedHostname_eq_nil hn]
  · intro r ts hu hm
    simp [ReadResolvedHostname, db.QueryOrchestrator, sqlSelectResolvedHostname_of_mem hu hm]

/-- Witness of C3, miss: no row for b. -/
theorem ReadResolvedHostname_miss_and_hit_witness :
    ReadResolvedHostname "b" none { hostname_resolve := [⟨"a", "c", 5⟩] } = ("", none)
      ∧ ReadResolvedHostname "a" none { hostname_resolve := [⟨"a", "c", 5⟩] } = ("c", none) :=
  ⟨(ReadResolvedHostname_miss_and_hit { hostname_resolve := [⟨"a", "c", 5⟩] } "b").1
      (by decide),
    (ReadResolvedHostname_miss_and_hit { hostname_resolve := [⟨"a", "c", 5⟩] } "a").2 "c" 5
      (by decide) (by decide)⟩

theorem sqlSelectUnresolvedHostname_eq_nil {h : String} {rows : List UnresolveRow}
    (hn : h ∉ rows.map (·.hostname)) : sqlSelectUnresolvedHostname h rows = [] := by
  simp only [sqlSelectUnresolvedHostname, List.map_eq_nil_iff, List.filter_eq_nil_iff]
  intro x hx hxh
  exact hn (List.mem_map.2 ⟨x, hx, by simpa using hxh⟩)

/-- C4. Fail-open reverse read: for a hostname with no row in the reverse store,
readUnresolvedHostname returns the hostname itself, whether the query succeeds or fails
(after however many rows); the error returned is the one of the query. -/
theorem readUnresolvedHostname_fail_open (w : World) (h : String) (fault : QueryFault)
    (hmiss : h ∉ w.hostname_unresolve.map (·.hostname)) :
    readUnresolvedHostname h fault w = (h, fault.map (·.2)) := by
  cases fault with
  | none =>
    simp [readUnresolvedHostname, db.QueryOrchestrator, sqlSelectUnresolvedHostname_eq_nil hmiss]
  | some p =>
    simp [readUnresolvedHostname, db.QueryOrchestrator, sqlSelectUnresolvedHostname_eq_nil hmiss]

/-- Witness of C4: a failing query on a store without the hostname. -/
theorem readUnresolvedHostname_fail_open_witness :
    readUnresolvedHostname "b" (some (1, "gone away"))
      { hostname_unresolve := [⟨"a", "c", 5⟩] } = ("b", some "gone away") :=
  readUnresolvedHostname_fail_open { hostname_unresolve := [⟨"a", "c", 5⟩] } "b"
    (some (1, "gone away")) (by decide)

theorem WriteHostnameUnresolve_hostname_unresolve (k : InstanceKey) (u : String)
    (f1 f2 : GoError) (w : World) :
    (WriteHostnameUnresolve k u f1 f2 w).1.hostname_unresolve =
      if f1 = none then sqlInsertHostnameUnresolve k.Hostname u w.now w.hostname_unresolve
      else w.hostname_unresolve := by
  cases f1 <;> cases f2 <;>
    simp [WriteHostnameUnresolve, ExecDBWriteFunc, db.ExecOrchestrator, Stmt.apply]

theorem WriteHostnameUnresolve_result (k : InstanceKey) (u : String)
    (f1 f2 : GoError) (w : World) :
    (WriteHostnameUnresolve k u f1 f2 w).2 = none ↔ f1 = none := by
  cases f1 <;> cases f2 <;>
    simp [WriteHostnameUnresolve, ExecDBWriteFunc, db.ExecOrchestrator, log.Errore]

theorem filter_hostname_eq_nil {h : String} {rows : List UnresolveRow}
    (hn : h ∉ rows.map (·.hostname)) : rows.filter (fun x => x.hostname = h) = [] := by
  simp only [List.filter_eq_nil_iff]
  intro x hx hxh
  exact hn (List.mem_map.2 ⟨x, hx, by simpa using hxh⟩)

theorem sqlInsertHostnameUnresolve_hostnames (h u : String) (now : Int)
    (rows : List UnresolveRow) :
    (sqlInsertHostnameUnresolve h u now rows).map (·.hostname) =
      if h ∈ rows.map (·.hostname) then rows.map (·.hostname)
      else rows.map (·.hostname) ++ [h] := by
  unfold sqlInsertHostnameUnresolve
  by_cases hm : h ∈ rows.map (·.hostname)
  · have hany : (rows.any fun x => decide (x.hostname = h)) = true := by
      simpa [List.any_eq_true] using hm
    rw [if_pos hany, if_pos hm, List.map_map]
    apply List.map_congr_left
    intro x _
    by_cases hx : x.hostname = h <;> simp [hx]
  · have hany : ¬ (rows.any fun x => decide (x.hostname = h)) = true := by
      simpa [List.any_eq_true] using hm
    rw [if_neg hany, if_neg hm]
    simp

theorem sqlInsertHostnameUnresolve_unique (h u : String) (now : Int)
    {rows : List UnresolveRow} (hu : UniqueUnresolveHostnames rows) :
    UniqueUnresolveHostnames (sqlInsertHostnameUnresolve h u now rows) := by
  unfold UniqueUnresolveHostnames at *
  rw [sqlInsertHostnameUnresolve_hostnames]
  split
  · exact hu
  · rename_i hm
    exact List.Nodup.append hu (List.nodup_singleton h) (by simpa using hm)

theorem filter_update_unresolve_absent (h u : String) (now : Int) (rows : List UnresolveRow)
    (hn : h ∉ rows.map (·.hostname)) :
    (rows.map (fun x =>
        if x.hostname = h then
          { x with unresolved_hostname := u, last_registered := now }
        else x)).filter (fun x => x.hostname = h) = [] := by
  apply filter_hostname_eq_nil
  rw [List.map_map]
  have : rows.map ((fun x => x.hostname) ∘ fun x =>
      if x.hostname = h then
        { x with unresolved_hostname := u, last_registered := now }
      else x) = rows.map (·.hostname) := by
    apply List.map_congr_left
    intro y _
    by_cases hy : y.hostname = h <;> simp [hy]
  rw [this]
  exact hn

theorem filter_update_unresolve_self (h u : String) (now : Int) (rows : List UnresolveRow)
    (hu : UniqueUnresolveHostnames rows) (hm : h ∈ rows.map (·.hostname)) :
    (rows.map (fun x =>
        if x.hostname = h then
          { x with unresolved_hostname := u, last_registered := now }
        else x)).filter (fun x => x.hostname = h) = [⟨h, u, now⟩] := by
  induction rows with
  | nil => simp at hm
  | cons x xs ih =>
    have hu2 : (x.hostname ∉ xs.map (·.hostname)) ∧ UniqueUnresolveHostnames xs := by
      simpa [UniqueUnresolveHostnames] using hu
    by_cases hx : x.hostname = h
    · have hnil := filter_update_unresolve_absent h u now xs (hx ▸ hu2.1)
      simp [hx, hnil]
    · have hm2 : h ∈ xs.map (·.hostname) := by
        simp only [List.map_cons, List.mem_cons] at hm
        rcases hm with hm | hm
        · exact absurd hm.symm hx
        · exact hm
      have := ih hu2.2 hm2
      simp [hx, this]

theorem filter_sqlInsertHostnameUnresolve_self (h u : String) (now : Int)
    {rows : List UnresolveRow} (hu : UniqueUnresolveHostnames rows) :
    (sqlInsertHostnameUnresolve h u now rows).filter (fun x => x.hostname = h)
      = [⟨h, u, now⟩] := by
  unfold sqlInsertHostnameUnresolve
  split
  · rename_i hany
    have hm : h ∈ rows.map (·.hostname) := by simpa [List.any_eq_true] using hany
    exact filter_update_unresolve_self h u now rows hu hm
  · rename_i hany
    have hn : h ∉ rows.map (·.hostname) := by simpa [List.any_eq_true] using hany
    simp [List.filter_append, filter_hostname_eq_nil hn]

theorem filter_sqlInsertHostnameUnresolve_other (h u : String) (now : Int)
    (rows : List UnresolveRow) :
    (sqlInsertHostnameUnresolve h u now rows).filter (fun x => ¬ (x.hostname = h))
      = rows.filter (fun x => ¬ (x.hostname = h)) := by
  unfold sqlInsertHostnameUnresolve
  split
  · rename_i hany
    clear hany
    induction rows with
    | nil => rfl
    | cons x xs ih =>
      simp only [decide_not] at ih
      by_cases hx : x.hostname = h <;> simp [hx, ih]
  · simp [List.filter_append]

theorem WriteHostnameUnresolve_effect (k : InstanceKey) (u : String) (f1 f2 : GoError)
    (w : World) (hunique : UniqueUnresolveHostnames w.hostname_unresolve)
    (hok : (WriteHostnameUnresolve k u f1 f2 w).2 = none) :
    (WriteHostnameUnresolve k u f1 f2 w).1.hostname_unresolve.filter
        (fun x => x.hostname = k.Hostname) = [⟨k.Hostname, u, w.now⟩]
      ∧ readUnresolvedHostname k.Hostname none (WriteHostnameUnresolve k u f1 f2 w).1
          = (u, none)
      ∧ (WriteHostnameUnresolve k u f1 f2 w).1.hostname_unresolve.filter
          (fun x => ¬ (x.hostname = k.Hostname))
          = w.hostname_unresolve.filter (fun x => ¬ (x.hostname = k.Hostname))
      ∧ UniqueUnresolveHostnames (WriteHostnameUnresolve k u f1 f2 w).1.hostname_unresolve := by
  have hf : f1 = none := (WriteHostnameUnresolve_result k u f1 f2 w).1 hok
  have hstep := WriteHostnameUnresolve_hostname_unresolve k u f1 f2 w
  rw [if_pos hf] at hstep
  have hself := filter_sqlInsertHostnameUnresolve_self k.Hostname u w.now hunique
  refine ⟨by rw [hstep, hself], ?_, ?_, ?_⟩
  · simp [readUnresolvedHostname, db.QueryOrchestrator, sqlSelectUnresolvedHostname,
      hstep, hself]
  · rw [hstep]
    exact filter_sqlInsertHostnameUnresolve_other _ _ _ _
  · rw [hstep]
    exact sqlInsertHostnameUnresolve_unique _ _ _ hunique

/-- C5. Reverse-store round trip and uniqueness: on a reverse store with at most one row per
hostname, after a WriteHostnameUnresolve(k, u) that returned nil the rows keyed k.Hostname
are exactly one row, with unresolved hostname u (and the time of the call); a read of
k.Hostname whose query succeeds returns u; the rows keyed by other hostnames are as before;
and the store still has at most one row per hostname. -/
theorem WriteHostnameUnresolve_round_trip (k : InstanceKey) (u : String) (f1 f2 : GoError)
    (w : World) (hunique : UniqueUnresolveHostnames w.hostname_unresolve)
    (hok : (WriteHostnameUnresolve k u f1 f2 w).2 = none) :
    (WriteHostnameUnresolve k u f1 f2 w).1.hostname_unresolve.filter
        (fun x => x.hostname = k.Hostname) = [⟨k.Hostname, u, w.now⟩]
      ∧ readUnresolvedHostname k.Hostname none (WriteHostnameUnresolve k u f1 f2 w).1
          = (u, none)
      ∧ (WriteHostnameUnresolve k u f1 f2 w).1.hostname_unresolve.filter
          (fun x => ¬ (x.hostname = k.Hostname))
          = w.hostname_unresolve.filter (fun x => ¬ (x.hostname = k.Hostname))
      ∧ UniqueUnresolveHostnames (WriteHostnameUnresolve k u f1 f2 w).1.hostname_unresolve :=
  WriteHostnameUnresolve_effect k u f1 f2 w hunique hok

/-- Witness of C5: an existing row for h is overwritten, the row for g stays. -/
theorem WriteHostnameUnresolve_round_trip_witness :
    readUnresolvedHostname "h" none
      (WriteHostnameUnresolve ⟨"h", 3306⟩ "u" none (some "down")
        { hostname_unresolve := [⟨"g", "x", 1⟩, ⟨"h", "y", 2⟩], now := 9 }).1 = ("u", none) :=
  (WriteHostnameUnresolve_round_trip ⟨"h", 3306⟩ "u" none (some "down")
    { hostname_unresolve := [⟨"g", "x", 1⟩, ⟨"h", "y", 2⟩], now := 9 }
    (by decide) (by decide)).2.1

/-- C6. Heartbeat semantics: on a reverse store with at most one row per hostname, a
WriteHostnameUnresolve(k, x) that returned nil leaves the one row keyed k.Hostname with
last_registered equal to the store clock of that call, whatever the row held before; and
after two such calls with the same arguments, at clock T1 and then at clock T2, the row's
last_registered is T2. -/
theorem WriteHostnameUnresolve_heartbeat (k : InstanceKey) (x : String)
    (f1 f2 g1 g2 : GoError) (T1 T2 : Int) (w : World)
    (hunique : UniqueUnresolveHostnames w.hostname_unresolve)
    (hok1 : (WriteHostnameUnresolve k x f1 f2 { w with now := T1 }).2 = none)
    (hok2 : (WriteHostnameUnresolve k x g1 g2
      { (WriteHostnameUnresolve k x f1 f2 { w with now := T1 }).1 with now := T2 }).2 = none) :
    sqlSelectLastRegistered k.Hostname
        (WriteHostnameUnresolve k x f1 f2 { w with now := T1 }).1.hostname_unresolve = [T1]
      ∧ sqlSelectUnresolvedHostname k.Hostname
        (WriteHostnameUnresolve k x f1 f2 { w with now := T1 }).1.hostname_unresolve = [x]
      ∧ sqlSelectLastRegistered k.Hostname
        (WriteHostnameUnresolve k x g1 g2
          { (WriteHostnameUnresolve k x f1 f2 { w with now := T1 }).1 with now := T2 }
          ).1.hostname_unresolve = [T2] := by
  have h1 := WriteHostnameUnresolve_effect k x f1 f2 { w with now := T1 } hunique hok1
  have h2 := WriteHostnameUnresolve_effect k x g1 g2
    { (WriteHostnameUnresolve k x f1 f2 { w with now := T1 }).1 with now := T2 } h1.2.2.2 hok2
  refine ⟨?_, ?_, ?_⟩
  · simp only [sqlSelectLastRegistered, h1.1, List.map_cons, List.map_nil]
  · simp only [sqlSelectUnresolvedHostname, h1.1, List.map_cons, List.map_nil]
  · simp only [sqlSelectLastRegistered, h2.1, List.map_cons, List.map_nil]

/-- Witness of C6: two registrations of the same value at clock 10 and 20. -/
theorem WriteHostnameUnresolve_heartbeat_witness :
    sqlSelectLastRegistered "h"
        (WriteHostnameUnresolve ⟨"h", 3306⟩ "x" none none
          { (WriteHostnameUnresolve ⟨"h", 3306⟩ "x" none none
              { ({ } : World) with now := 10 }).1 with now := 20 }).1.hostname_unresolve
      = [20] :=
  (WriteHostnameUnresolve_heartbeat ⟨"h", 3306⟩ "x" none none none none 10 20 { }
    (by decide) (by decide) (by decide)).2.2

theorem WriteResolvedHostname_same_history (a : String) (f1 f2 : GoError) (w : World) :
    (WriteResolvedHostname a a f1 f2 w).1.hostname_resolve_history = w.hostname_resolve_history
      ∧ touches .hostname_resolve_history
          (issuedBy w (WriteResolvedHostname a a f1 f2 w).1) = false := by
  cases f1 <;>
    simp [WriteResolvedHostname, ExecDBWriteFunc, db.ExecOrchestrator, Stmt.apply, issuedBy,
      touches, Stmt.table]

theorem issuedBy_trans (a b c : World) (h1 : a.executed <+: b.executed)
    (h2 : b.executed <+: c.executed) : issuedBy a c = issuedBy a b ++ issuedBy b c := by
  obtain ⟨l1, e1⟩ := h1
  obtain ⟨l2, e2⟩ := h2
  simp [issuedBy, ← e2, ← e1]

theorem touches_append (t : Table) (l1 l2 : List Issued) :
    touches t (l1 ++ l2) = (touches t l1 || touches t l2) := by
  simp [touches]

theorem WriteResolvedHostname_executed (h r : String) (f1 f2 : GoError) (w : World) :
    w.executed <+: (WriteResolvedHostname h r f1 f2 w).1.executed := by
  cases f1 <;> cases f2 <;> by_cases hr : h = r <;>
    simp [WriteResolvedHostname, ExecDBWriteFunc, db.ExecOrchestrator, Stmt.apply, hr]

theorem runWriteResolved_executed (calls : List WriteResolvedCall) :
    ∀ w : World, w.executed <+: (runWriteResolved calls w).1.executed := by
  induction calls with
  | nil => intro w; simp [runWriteResolved]
  | cons c cs ih =>
    intro w
    have h1 := WriteResolvedHostname_executed c.hostname c.resolvedHostname c.upsertFault
      c.historyFault { w with now := c.now }
    exact List.IsPrefix.trans h1 (ih _)

theorem runWriteResolved_same_history (a : String) (runs : List (Int × GoError × GoError)) :
    ∀ w : World,
      (runWriteResolved (runs.map (fun p => ⟨a, a, p.1, p.2.1, p.2.2⟩)) w
        ).1.hostname_resolve_history = w.hostname_resolve_history
        ∧ touches .hostname_resolve_history
          (issuedBy w (runWriteResolved (runs.map (fun p => ⟨a, a, p.1, p.2.1, p.2.2⟩)) w).1)
            = false := by
  induction runs with
  | nil => intro w; simp [runWriteResolved, issuedBy, touches]
  | cons p ps ih =>
    intro w
    have h1 := WriteResolvedHostname_same_history a p.2.1 p.2.2 { w with now := p.1 }
    have e1 := WriteResolvedHostname_executed a a p.2.1 p.2.2 { w with now := p.1 }
    have h2 := ih (WriteResolvedHostname a a p.2.1 p.2.2 { w with now := p.1 }).1
    have e2 := runWriteResolved_executed (ps.map (fun p => ⟨a, a, p.1, p.2.1, p.2.2⟩))
      (WriteResolvedHostname a a p.2.1 p.2.2 { w with now := p.1 }).1
    constructor
    · simp only [List.map_cons, runWriteResolved]
      rw [h2.1, h1.1]
    · simp only [List.map_cons, runWriteResolved]
      have := issuedBy_trans { w with now := p.1 } _ _ e1 e2
      have hw : ∀ v : World, issuedBy w v = issuedBy { w with now := p.1 } v := fun _ => rfl
      rw [hw, this, touches_append, h1.2, h2.2]
      rfl

theorem WriteResolvedHostname_touches_history (h r : String) (f1 f2 : GoError) (w : World) :
    touches .hostname_resolve_history (issuedBy w (WriteResolvedHostname h r f1 f2 w).1) = true
      ↔ h ≠ r ∧ f1 = none := by
  cases f1 <;> cases f2 <;> by_cases hr : h = r <;>
    simp [WriteResolvedHostname, ExecDBWriteFunc, db.ExecOrchestrator, Stmt.apply, issuedBy,
      touches, Stmt.table, hr]

/-- C7. History only for real resolutions: any number of calls WriteResolvedHostname(a, a),
at any clock and whichever statements fail, leave the resolve-history table exactly as it
was and hand the store no statement on it; and a single call WriteResolvedHostname(h, r)
hands the store a statement on the resolve-history table if and only if h differs from r
and the upsert of the forward store succeeded. -/
theorem WriteResolvedHostname_history_only_for_real_resolutions :
    (∀ (a : String) (runs : List (Int × GoError × GoError)) (w : World),
      (runWriteResolved (runs.map (fun p => ⟨a, a, p.1, p.2.1, p.2.2⟩)) w
        ).1.hostname_resolve_history = w.hostname_resolve_history
      ∧ touches .hostname_resolve_history
          (issuedBy w (runWriteResolved (runs.map (fun p => ⟨a, a, p.1, p.2.1, p.2.2⟩)) w).1)
            = false)
    ∧ ∀ (h r : String) (f1 f2 : GoError) (w : World),
        touches .hostname_resolve_history
            (issuedBy w (WriteResolvedHostname h r f1 f2 w).1) = true
          ↔ h ≠ r ∧ f1 = none :=
  ⟨fun a runs w => runWriteResolved_same_history a runs w,
    fun h r f1 f2 w => WriteResolvedHostname_touches_history h r f1 f2 w⟩

theorem ExpireHostnameUnresolve_hostname_unresolve (cfg : Configuration) (w : World) :
    (ExpireHostnameUnresolve cfg none w).1.hostname_unresolve
      = sqlExpireHostnameUnresolve cfg.ExpiryHostnameResolvesMinutes w.now
          w.hostname_unresolve := by
  simp [ExpireHostnameUnresolve, ExecDBWriteFunc, db.ExecOrchestrator, Stmt.apply]

theorem ForgetExpiredHostnameResolves_hostname_resolve (cfg : Configuration) (w : World) :
    (ForgetExpiredHostnameResolves cfg none w).1.hostname_resolve
      = sqlForgetHostnameResolves cfg.ExpiryHostnameResolvesMinutes w.now
          w.hostname_resolve := by
  simp [ForgetExpiredHostnameResolves, db.ExecOrchestrator, Stmt.apply]

/-- C8. Expiry ratio: with m = ExpiryHostnameResolvesMinutes and the store clock at now, a
reverse row whose last_registered is now minus (m+1) minutes is not in the reverse store
after ExpireHostnameUnresolve (its delete statement carried out), and, when m+1 < 2m, a
forward row whose resolved_timestamp is now minus (m+1) minutes is still in the forward
store after ForgetExpiredHostnameResolves. -/
theorem expiry_ratio (cfg : Configuration) (w : World) (u : UnresolveRow) (f : ResolveRow)
    (hu : u.last_registered = w.now - 60 * (cfg.ExpiryHostnameResolvesMinutes + 1))
    (hf : f ∈ w.hostname_resolve)
    (hft : f.resolved_timestamp = w.now - 60 * (cfg.ExpiryHostnameResolvesMinutes + 1)) :
    u ∉ (ExpireHostnameUnresolve cfg none w).1.hostname_unresolve
      ∧ (cfg.ExpiryHostnameResolvesMinutes + 1 < 2 * cfg.ExpiryHostnameResolvesMinutes →
          f ∈ (ForgetExpiredHostnameResolves cfg none w).1.hostname_resolve) := by
  constructor
  · rw [ExpireHostnameUnresolve_hostname_unresolve]
    simp only [sqlExpireHostnameUnresolve, unresolveExpired, List.mem_filter, not_and,
      decide_eq_true_eq, Bool.not_eq_true, decide_eq_false_iff_not, Bool.decide_eq_true,
      Bool.not_eq_true', not_lt, not_le]
    intro _
    rw [hu]; omega
  · rw [ForgetExpiredHostnameResolves_hostname_resolve]
    simp only [sqlForgetHostnameResolves, resolveExpired, List.mem_filter,
      decide_eq_true_eq, Bool.not_eq_true, decide_eq_false_iff_not, Bool.decide_eq_true,
      Bool.not_eq_true', not_lt]
    intro hm
    refine ⟨hf, ?_⟩
    rw [hft]; omega

/-- Witness of C8: a window of 60 minutes and rows 61 minutes old. -/
theorem expiry_ratio_witness :
    (⟨"h", "u", 6340⟩ : UnresolveRow) ∉ (ExpireHostnameUnresolve { } none
        { hostname_unresolve := [⟨"h", "u", 6340⟩], hostname_resolve := [⟨"a", "b", 6340⟩],
          now := 10000 }).1.hostname_unresolve
      ∧ (⟨"a", "b", 6340⟩ : ResolveRow) ∈ (ForgetExpiredHostnameResolves { } none
        { hostname_unresolve := [⟨"h", "u", 6340⟩], hostname_resolve := [⟨"a", "b", 6340⟩],
          now := 10000 }).1.hostname_resolve :=
  ⟨(expiry_ratio { }
      { hostname_unresolve := [⟨"h", "u", 6340⟩], hostname_resolve := [⟨"a", "b", 6340⟩],
        now := 10000 } ⟨"h", "u", 6340⟩ ⟨"a", "b", 6340⟩
      (by decide) (by decide) (by decide)).1,
    (expiry_ratio { }
      { hostname_unresolve := [⟨"h", "u", 6340⟩], hostname_resolve := [⟨"a", "b", 6340⟩],
        now := 10000 } ⟨"h", "u", 6340⟩ ⟨"a", "b", 6340⟩
      (by decide) (by decide) (by decide)).2 (by decide)⟩

theorem sqlInsertHostnameResolve_stamps (h r : String) (now : Int) (rows : List ResolveRow)
    (hrows : ∀ x ∈ rows, x.resolved_timestamp ≤ now) :
    ∀ x ∈ sqlInsertHostnameResolve h r now rows, x.resolved_timestamp ≤ now := by
  intro x hx
  unfold sqlInsertHostnameResolve at hx
  split at hx
  · obtain ⟨y, hy, hyx⟩ := List.mem_map.1 hx
    by_cases hyh : y.hostname = h
    · rw [if_pos hyh] at hyx
      subst hyx
      exact le_refl now
    · rw [if_neg hyh] at hyx
      subst hyx
      exact hrows y hy
  · rcases List.mem_append.1 hx with hx | hx
    · exact hrows x hx
    · have : x = ⟨h, r, now⟩ := by simpa using hx
      subst this
      exact le_refl now

theorem sqlInsertHostnameUnresolve_stamps (h u : String) (now : Int)
    (rows : List UnresolveRow) (hrows : ∀ x ∈ rows, x.last_registered ≤ now) :
    ∀ x ∈ sqlInsertHostnameUnresolve h u now rows, x.last_registered ≤ now := by
  intro x hx
  unfold sqlInsertHostnameUnresolve at hx
  split at hx
  · obtain ⟨y, hy, hyx⟩ := List.mem_map.1 hx
    by_cases hyh : y.hostname = h
    · rw [if_pos hyh] at hyx
      subst hyx
      exact le_refl now
    · rw [if_neg hyh] at hyx
      subst hyx
      exact hrows y hy
  · rcases List.mem_append.1 hx with hx | hx
    · exact hrows x hx
    · have : x = ⟨h, u, now⟩ := by simpa using hx
      subst this
      exact le_refl now

/-- The stores hold no timestamp later than the clock when they are empty, and keep that
property when the clock moves on and under the two writers of resolve_dao.go, which stamp
their rows with NOW(), whatever fails. -/
theorem TimestampsNotAfterNow_writes (w : World) (hw : TimestampsNotAfterNow w) :
    TimestampsNotAfterNow { now := w.now }
      ∧ (∀ later : Int, w.now ≤ later → TimestampsNotAfterNow { w with now := later })
      ∧ (∀ (h r : String) (f1 f2 : GoError),
          TimestampsNotAfterNow (WriteResolvedHostname h r f1 f2 w).1)
      ∧ (∀ (k : InstanceKey) (u : String) (f1 f2 : GoError),
          TimestampsNotAfterNow (WriteHostnameUnresolve k u f1 f2 w).1) := by
  obtain ⟨hr, hu⟩ := hw
  refine ⟨⟨by simp, by simp⟩, fun later hl => ⟨fun x hx => le_trans (hr x hx) hl,
    fun x hx => le_trans (hu x hx) hl⟩, fun h r f1 f2 => ?_, fun k u f1 f2 => ?_⟩
  · have hnow : (WriteResolvedHostname h r f1 f2 w).1.now = w.now := by
      cases f1 <;> cases f2 <;> by_cases hhr : h = r <;>
        simp [WriteResolvedHostname, ExecDBWriteFunc, db.ExecOrchestrator, Stmt.apply, hhr]
    have hun : (WriteResolvedHostname h r f1 f2 w).1.hostname_unresolve
        = w.hostname_unresolve := by
      cases f1 <;> cases f2 <;> by_cases hhr : h = r <;>
        simp [WriteResolvedHostname, ExecDBWriteFunc, db.ExecOrchestrator, Stmt.apply, hhr]
    refine ⟨?_, by rw [hun, hnow]; exact hu⟩
    rw [WriteResolvedHostname_hostname_resolve, hnow]
    split
    · exact sqlInsertHostnameResolve_stamps h r w.now _ hr
    · exact hr
  · have hnow : (WriteHostnameUnresolve k u f1 f2 w).1.now = w.now := by
      cases f1 <;> cases f2 <;>
        simp [WriteHostnameUnresolve, ExecDBWriteFunc, db.ExecOrchestrator, Stmt.apply]
    have hre : (WriteHostnameUnresolve k u f1 f2 w).1.hostname_resolve
        = w.hostname_resolve := by
      cases f1 <;> cases f2 <;>
        simp [WriteHostnameUnresolve, ExecDBWriteFunc, db.ExecOrchestrator, Stmt.apply]
    refine ⟨by rw [hre, hnow]; exact hr, ?_⟩
    rw [WriteHostnameUnresolve_hostname_unresolve, hnow]
    split
    · exact sqlInsertHostnameUnresolve_stamps k.Hostname u w.now _ hu
    · exact hu

/-- The statements that delete rows write no timestamp: whatever fails, the sweeps, the
deregistration and the flush leave the stores with no timestamp later than the clock. -/
theorem TimestampsNotAfterNow_deletes (w : World) (hw : TimestampsNotAfterNow w)
    (cfg : Configuration) (k : InstanceKey) (fault : GoError) :
    TimestampsNotAfterNow (ExpireHostnameUnresolve cfg fault w).1
      ∧ TimestampsNotAfterNow (ForgetExpiredHostnameResolves cfg fault w).1
      ∧ TimestampsNotAfterNow (DeregisterHostnameUnresolve k fault w).1
      ∧ TimestampsNotAfterNow (deleteHostnameResolves fault w).1 := by
  obtain ⟨hr, hu⟩ := hw
  refine ⟨?_, ?_, ?_, ?_⟩
  · cases fault
    · refine ⟨by simpa [ExpireHostnameUnresolve, ExecDBWriteFunc, db.ExecOrchestrator,
        Stmt.apply] using hr, ?_⟩
      intro x hx
      simp only [ExpireHostnameUnresolve, ExecDBWriteFunc, db.ExecOrchestrator, Stmt.apply,
        sqlExpireHostnameUnresolve] at hx
      exact hu x (List.mem_filter.1 hx).1
    · exact ⟨by simpa [ExpireHostnameUnresolve, ExecDBWriteFunc, db.ExecOrchestrator] using hr,
        by simpa [ExpireHostnameUnresolve, ExecDBWriteFunc, db.ExecOrchestrator] using hu⟩
  · cases fault
    · refine ⟨?_, by simpa [ForgetExpiredHostnameResolves, db.ExecOrchestrator,
        Stmt.apply] using hu⟩
      intro x hx
      simp only [ForgetExpiredHostnameResolves, db.ExecOrchestrator, Stmt.apply,
        sqlForgetHostnameResolves] at hx
      exact hr x (List.mem_filter.1 hx).1
    · exact ⟨by simpa [ForgetExpiredHostnameResolves, db.ExecOrchestrator] using hr,
        by simpa [ForgetExpiredHostnameResolves, db.ExecOrchestrator] using hu⟩
  · cases fault
    · refine ⟨by simpa [DeregisterHostnameUnresolve, ExecDBWriteFunc, db.ExecOrchestrator,
        Stmt.apply] using hr, ?_⟩
      intro x hx
      simp only [DeregisterHostnameUnresolve, ExecDBWriteFunc, db.ExecOrchestrator,
        Stmt.apply, sqlDeleteHostnameUnresolve] at hx
      exact hu x (List.mem_filter.1 hx).1
    · exact ⟨by simpa [DeregisterHostnameUnresolve, ExecDBWriteFunc,
          db.ExecOrchestrator] using hr,
        by simpa [DeregisterHostnameUnresolve, ExecDBWriteFunc, db.ExecOrchestrator] using hu⟩
  · cases fault
    · exact ⟨by simp [deleteHostnameResolves, db.ExecOrchestrator, Stmt.apply],
        by simpa [deleteHostnameResolves, db.ExecOrchestrator, Stmt.apply] using hu⟩
    · exact ⟨by simpa [deleteHostnameResolves, db.ExecOrchestrator] using hr,
        by simpa [deleteHostnameResolves, db.ExecOrchestrator] using hu⟩

/-- C9. Forward expiry is never more aggressive than reverse expiry: for every integer
value m of ExpiryHostnameResolvesMinutes, negative ones included, every current time now and
every timestamp t that is not later than now, as every timestamp of the two stores is
(TimestampsNotAfterNow: the rows are stamped with NOW() of the store whose NOW() the sweeps
compare them with), a t that satisfies the where clause of ForgetExpiredHostnameResolves
satisfies the where clause of ExpireHostnameUnresolve; and for a window m that is not
negative this holds of every timestamp whatever. -/
theorem forward_expiry_no_more_aggressive (m now t : Int) (h : 0 ≤ m ∨ t ≤ now)
    (hforward : resolveExpired m now t = true) : unresolveExpired m now t = true := by
  simp only [resolveExpired, unresolveExpired, decide_eq_true_eq] at *
  omega

/-- Witness of C9: the negative window -1, clock 1000 and a row stamped at 990. -/
theorem forward_expiry_no_more_aggressive_witness : unresolveExpired (-1) 1000 990 = true :=
  forward_expiry_no_more_aggressive (-1) 1000 990 (Or.inr (by decide)) (by decide)

theorem ExpireHostnameUnresolve_result (cfg : Configuration) (fault : GoError) (w : World) :
    (ExpireHostnameUnresolve cfg fault w).2
      = some ("ExpireHostnameUnresolve: " ++ fmtError fault) := by
  cases fault <;> simp [ExpireHostnameUnresolve, ExecDBWriteFunc, db.ExecOrchestrator,
    log.Errorf]

/-- C10, the code at a failing input: with the default window and a delete statement that
succeeds, and does delete the stale row, ExpireHostnameUnresolve returns a non-nil error,
made by log.Errorf from the nil outcome of the statement. -/
theorem ExpireHostnameUnresolve_returns_error_on_success :
    ExpireHostnameUnresolve { } none { hostname_unresolve := [⟨"h", "u", 0⟩], now := 7200 }
      = ({ hostname_unresolve := [], now := 7200,
           executed := [⟨.expireHostnameUnresolve 60, true⟩] },
         some "ExpireHostnameUnresolve: <nil>") := by
  decide

theorem mem_foldl_AddKey (rows : List (String × Int)) (key : InstanceKey) :
    ∀ init : InstanceKeyMap,
      key ∈ rows.foldl (fun (result : InstanceKeyMap) m =>
          result.AddKey { Hostname := m.1, Port := m.2 }) init
        ↔ key ∈ init ∨ ∃ m ∈ rows, key = { Hostname := m.1, Port := m.2 } := by
  induction rows with
  | nil => intro init; simp
  | cons m ms ih =>
    intro init
    rw [List.foldl_cons, ih]
    unfold InstanceKeyMap.AddKey
    by_cases hm : ({ Hostname := m.1, Port := m.2 } : InstanceKey) ∈ init
    · rw [if_pos hm]
      constructor
      · rintro (h | ⟨x, hx, hk⟩)
        · exact Or.inl h
        · exact Or.inr ⟨x, List.mem_cons_of_mem _ hx, hk⟩
      · rintro (h | ⟨x, hx, hk⟩)
        · exact Or.inl h
        · rcases List.mem_cons.1 hx with hx | hx
          · subst hx; subst hk; exact Or.inl hm
          · exact Or.inr ⟨x, hx, hk⟩
    · rw [if_neg hm]
      constructor
      · rintro (h | ⟨x, hx, hk⟩)
        · rcases List.mem_append.1 h with h | h
          · exact Or.inl h
          · exact Or.inr ⟨m, List.mem_cons_self _ _, by simpa using h⟩
        · exact Or.inr ⟨x, List.mem_cons_of_mem _ hx, hk⟩
      · rintro (h | ⟨x, hx, hk⟩)
        · exact Or.inl (List.mem_append_left _ h)
        · rcases List.mem_cons.1 hx with hx | hx
          · subst hx; subst hk; exact Or.inl (List.mem_append_right _ (by simp))
          · exact Or.inr ⟨x, hx, hk⟩

theorem mem_sqlJoinMissingKeys {instances : List DatabaseInstanceRow}
    {unresolves : List UnresolveRow} {resolves : List ResolveRow}
    {p : DatabaseInstanceRow × UnresolveRow} :
    p ∈ sqlJoinMissingKeys instances unresolves resolves ↔
      p.1 ∈ instances ∧ p.2 ∈ unresolves ∧ p.1.hostname = p.2.hostname
        ∧ ∀ f ∈ resolves, f.resolved_hostname ≠ p.2.hostname := by
  obtain ⟨d, u⟩ := p
  simp only [sqlJoinMissingKeys, List.mem_flatMap, List.mem_map, List.mem_filter,
    List.any_eq_true, decide_eq_true_eq, Prod.mk.injEq, not_exists, not_and]
  constructor
  · rintro ⟨d', hd', u', ⟨⟨hu', he⟩, hn⟩, rfl, rfl⟩
    exact ⟨hd', hu', he, fun f hf hfe => hn f hf (he.trans hfe.symm)⟩
  · rintro ⟨hd, hu, he, hn⟩
    exact ⟨d, hd, u, ⟨⟨hu, he⟩, fun f hf hfe => hn f hf (hfe.symm.trans he)⟩, rfl, rfl⟩

theorem mem_readMissingKeysToResolve_of_mem (fault : QueryFault) (w : World)
    (key : InstanceKey) (h : key ∈ (readMissingKeysToResolve fault w).1) :
    ∃ p ∈ sqlJoinMissingKeys w.database_instance w.hostname_unresolve w.hostname_resolve,
      key = { Hostname := p.2.unresolved_hostname, Port := p.1.port } := by
  have hsub : ∀ rows : List (String × Int),
      (∀ m ∈ rows, m ∈ sqlSelectMissingKeys w.database_instance w.hostname_unresolve
        w.hostname_resolve) →
      key ∈ rows.foldl (fun (result : InstanceKeyMap) m =>
          result.AddKey { Hostname := m.1, Port := m.2 }) [] →
      ∃ p ∈ sqlJoinMissingKeys w.database_instance w.hostname_unresolve w.hostname_resolve,
        key = { Hostname := p.2.unresolved_hostname, Port := p.1.port } := by
    intro rows hrows hk
    rcases (mem_foldl_AddKey rows key []).1 hk with hk | ⟨m, hm, hk⟩
    · simp at hk
    · obtain ⟨p, hp, hpm⟩ := List.mem_map.1 (hrows m hm)
      exact ⟨p, hp, by rw [hk, ← hpm]⟩
  cases fault with
  | none =>
    exact hsub _ (fun m hm => hm) (by simpa [readMissingKeysToResolve, db.QueryOrchestrator] using h)
  | some ke =>
    exact hsub _ (fun m hm => List.mem_of_mem_take hm)
      (by simpa [readMissingKeysToResolve, db.QueryOrchestrator] using h)

/-- C11, as stated, fails: a reverse entry H -> U with no forward entry resolving to H, in a
store whose database_instance table has no row for H, yields an empty result. -/
theorem readMissingKeysToResolve_misses_unknown_instance :
    (⟨"H", "U", 0⟩ : UnresolveRow) ∈
        ({ hostname_unresolve := [⟨"H", "U", 0⟩] } : World).hostname_unresolve
      ∧ ({ hostname_unresolve := [⟨"H", "U", 0⟩] } : World).hostname_resolve = []
      ∧ (readMissingKeysToResolve none { hostname_unresolve := [⟨"H", "U", 0⟩] }).1 = [] := by
  decide

/-- C11, amended. Missing detection, completeness: for every store state, every reverse
entry (hostname H, unresolved hostname U) such that no forward entry has resolved hostname
H, and every row of database_instance with hostname H and some port, the result of
readMissingKeysToResolve, its query succeeding, contains the instance key (U, port). -/
theorem readMissingKeysToResolve_complete (w : World) (u : UnresolveRow)
    (d : DatabaseInstanceRow) (hu : u ∈ w.hostname_unresolve)
    (hnone : ∀ f ∈ w.hostname_resolve, f.resolved_hostname ≠ u.hostname)
    (hd : d ∈ w.database_instance) (hdu : d.hostname = u.hostname) :
    ({ Hostname := u.unresolved_hostname, Port := d.port } : InstanceKey)
        ∈ (readMissingKeysToResolve none w).1
      ∧ (readMissingKeysToResolve none w).2 = none := by
  refine ⟨?_, by simp [readMissingKeysToResolve, db.QueryOrchestrator]⟩
  have hp : (d, u) ∈ sqlJoinMissingKeys w.database_instance w.hostname_unresolve
      w.hostname_resolve := mem_sqlJoinMissingKeys.2 ⟨hd, hu, hdu, hnone⟩
  have hm : (u.unresolved_hostname, d.port) ∈ sqlSelectMissingKeys w.database_instance
      w.hostname_unresolve w.hostname_resolve := List.mem_map.2 ⟨(d, u), hp, rfl⟩
  simp only [readMissingKeysToResolve, db.QueryOrchestrator]
  exact (mem_foldl_AddKey _ _ []).2 (Or.inr ⟨_, hm, rfl⟩)

/-- Witness of C11 amended: the instance H:3306 is registered as U and nothing resolves
to H. -/
theorem readMissingKeysToResolve_complete_witness :
    ({ Hostname := "U", Port := 3306 } : InstanceKey)
        ∈ (readMissingKeysToResolve none
            { hostname_unresolve := [⟨"H", "U", 0⟩], hostname_resolve := [⟨"a", "b", 0⟩],
              database_instance := [{ hostname := "H", port := 3306 }] }).1
      ∧ (readMissingKeysToResolve none
            { hostname_unresolve := [⟨"H", "U", 0⟩], hostname_resolve := [⟨"a", "b", 0⟩],
              database_instance := [{ hostname := "H", port := 3306 }] }).2 = none :=
  readMissingKeysToResolve_complete
    { hostname_unresolve := [⟨"H", "U", 0⟩], hostname_resolve := [⟨"a", "b", 0⟩],
      database_instance := [{ hostname := "H", port := 3306 }] }
    ⟨"H", "U", 0⟩ { hostname := "H", port := 3306 }
    (by decide) (by decide) (by decide) (by decide)

theorem WriteResolvedHostname_frame (h r : String) (f1 f2 : GoError) (w : World) :
    (WriteResolvedHostname h r f1 f2 w).1.hostname_unresolve = w.hostname_unresolve
      ∧ (WriteResolvedHostname h r f1 f2 w).1.database_instance = w.database_instance := by
  cases f1 <;> cases f2 <;> by_cases hr : h = r <;>
    simp [WriteResolvedHostname, ExecDBWriteFunc, db.ExecOrchestrator, Stmt.apply, hr]

theorem mem_sqlInsertHostnameResolve (h r : String) (now : Int) (rows : List ResolveRow) :
    ∃ x ∈ sqlInsertHostnameResolve h r now rows, x.resolved_hostname = r := by
  unfold sqlInsertHostnameResolve
  split
  · rename_i hany
    obtain ⟨y, hy, hyh⟩ := List.any_eq_true.1 hany
    refine ⟨{ y with resolved_hostname := r, resolved_timestamp := now }, ?_, rfl⟩
    refine List.mem_map.2 ⟨y, hy, ?_⟩
    rw [if_pos (by simpa using hyh)]
  · exact ⟨⟨h, r, now⟩, by simp, rfl⟩

/-- C12. Missing detection, soundness: every key returned by readMissingKeysToResolve,
whether its query succeeds or fails part-way, is made of the unresolved hostname of a
reverse entry and the port of a database_instance row with that entry's hostname, a
hostname that no forward entry has as its resolved hostname; and after a
WriteResolvedHostname(X, H) that returned nil, no row of the query stems from a reverse entry
with hostname H, so every returned key stems from a reverse entry of another hostname. -/
theorem readMissingKeysToResolve_sound (w : World) (fault : QueryFault) :
    (∀ key ∈ (readMissingKeysToResolve fault w).1,
      ∃ d ∈ w.database_instance, ∃ u ∈ w.hostname_unresolve,
        d.hostname = u.hostname
          ∧ key = { Hostname := u.unresolved_hostname, Port := d.port }
          ∧ ∀ f ∈ w.hostname_resolve, f.resolved_hostname ≠ u.hostname)
    ∧ ∀ (X H : String) (f1 f2 : GoError), (WriteResolvedHostname X H f1 f2 w).2 = none →
        (∀ p ∈ sqlJoinMissingKeys (WriteResolvedHostname X H f1 f2 w).1.database_instance
            (WriteResolvedHostname X H f1 f2 w).1.hostname_unresolve
            (WriteResolvedHostname X H f1 f2 w).1.hostname_resolve, p.2.hostname ≠ H)
        ∧ ∀ key ∈ (readMissingKeysToResolve fault (WriteResolvedHostname X H f1 f2 w).1).1,
            ∃ d ∈ w.database_instance, ∃ u ∈ w.hostname_unresolve,
              d.hostname = u.hostname
                ∧ key = { Hostname := u.unresolved_hostname, Port := d.port }
                ∧ u.hostname ≠ H := by
  constructor
  · intro key hk
    obtain ⟨p, hp, hkp⟩ := mem_readMissingKeysToResolve_of_mem fault w key hk
    obtain ⟨hd, hu, he, hn⟩ := mem_sqlJoinMissingKeys.1 hp
    exact ⟨p.1, hd, p.2, hu, he, hkp, hn⟩
  · intro X H f1 f2 hok
    have hf : f1 = none := (WriteResolvedHostname_result X H f1 f2 w).1 hok
    have hstep := WriteResolvedHostname_hostname_resolve X H f1 f2 w
    rw [if_pos hf] at hstep
    obtain ⟨hfu, hfd⟩ := WriteResolvedHostname_frame X H f1 f2 w
    have hjoin : ∀ p ∈ sqlJoinMissingKeys (WriteResolvedHostname X H f1 f2 w).1.database_instance
        (WriteResolvedHostname X H f1 f2 w).1.hostname_unresolve
        (WriteResolvedHostname X H f1 f2 w).1.hostname_resolve, p.2.hostname ≠ H := by
      intro p hp hpe
      obtain ⟨_, _, _, hn⟩ := mem_sqlJoinMissingKeys.1 hp
      obtain ⟨x, hx, hxr⟩ := mem_sqlInsertHostnameResolve X H w.now w.hostname_resolve
      exact hn x (hstep ▸ hx) (hxr.trans hpe.symm)
    refine ⟨hjoin, fun key hk => ?_⟩
    obtain ⟨p, hp, hkp⟩ := mem_readMissingKeysToResolve_of_mem fault _ key hk
    obtain ⟨hd, hu, he, _⟩ := mem_sqlJoinMissingKeys.1 hp
    exact ⟨p.1, hfd ▸ hd, p.2, hfu ▸ hu, he, hkp, hjoin p hp⟩

/-- Witness of C12: H is registered as U and is missing; once X -> H is written the result
is empty. -/
theorem readMissingKeysToResolve_sound_witness :
    ({ Hostname := "U", Port := 3306 } : InstanceKey)
      ∉ (readMissingKeysToResolve none
          (WriteResolvedHostname "X" "H" none none
            { hostname_unresolve := [⟨"H", "U", 0⟩],
              database_instance := [{ hostname := "H", port := 3306 }] }).1).1 := by
  intro hk
  obtain ⟨d, _, u, hu, _, _, hne⟩ :=
    ((readMissingKeysToResolve_sound
      { hostname_unresolve := [⟨"H", "U", 0⟩],
        database_instance := [{ hostname := "H", port := 3306 }] } none).2
      "X" "H" none none (by decide)).2 _ hk
  have hu2 : u = ⟨"H", "U", 0⟩ := by simpa using hu
  exact hne (by rw [hu2])

theorem ExecOrchestrator_delete_hostname_resolve (h : String) (fault : GoError) (w : World) :
    (db.ExecOrchestrator (.deleteHostnameResolve h) fault w).1.hostname_resolve
      = if fault = none then sqlDeleteHostnameResolve h w.hostname_resolve
        else w.hostname_resolve := by
  cases fault <;> simp [db.ExecOrchestrator, Stmt.apply]

theorem deleteInvalidLoop_subset (hs : List String) :
    ∀ (faults : List GoError) (acc : World × GoError) (x : ResolveRow),
      x ∈ (deleteInvalidLoop hs faults acc).1.hostname_resolve → x ∈ acc.1.hostname_resolve := by
  induction hs with
  | nil => intro faults acc x hx; simpa [deleteInvalidLoop] using hx
  | cons h rest ih =>
    intro faults acc x hx
    rw [deleteInvalidLoop] at hx
    have h1 := ih _ _ x hx
    rw [ExecOrchestrator_delete_hostname_resolve] at h1
    split at h1
    · exact (List.mem_filter.1 h1).1
    · exact h1

theorem deleteInvalidLoop_executed (hs : List String) :
    ∀ (faults : List GoError) (acc : World × GoError),
      (deleteInvalidLoop hs faults acc).1.executed
        = acc.1.executed ++ hs.map (fun h => ⟨.deleteHostnameResolve h, acc.1.serialized⟩) := by
  induction hs with
  | nil => intro faults acc; simp [deleteInvalidLoop]
  | cons h rest ih =>
    intro faults acc
    rw [deleteInvalidLoop, ih]
    cases faults.head?.join <;> simp [db.ExecOrchestrator, Stmt.apply]

theorem deleteInvalidLoop_removes (hs : List String) :
    ∀ (faults : List GoError) (acc : World × GoError) (i : Nat) (h : String),
      hs[i]? = some h → faults.getD i none = none →
      h ∉ (deleteInvalidLoop hs faults acc).1.hostname_resolve.map (·.hostname) := by
  induction hs with
  | nil => intro faults acc i h hi; simp at hi
  | cons h0 rest ih =>
    intro faults acc i h hi hf
    rw [deleteInvalidLoop]
    cases i with
    | zero =>
      have hh : h0 = h := by simpa using hi
      subst hh
      have hf0 : faults.head?.join = none := by
        cases faults with
        | nil => rfl
        | cons f fs => simpa using hf
      intro hm
      obtain ⟨x, hx, hxh⟩ := List.mem_map.1 hm
      have h1 := deleteInvalidLoop_subset rest _ _ x hx
      rw [ExecOrchestrator_delete_hostname_resolve, if_pos hf0] at h1
      have := (List.mem_filter.1 h1).2
      simp only [sqlDeleteHostnameResolve, decide_eq_true_eq] at this
      exact this hxh
    | succ j =>
      have hj : rest[j]? = some h := by simpa using hi
      have hfj : faults.tail.getD j none = none := by
        cases faults with
        | nil => rfl
        | cons f fs => simpa using hf
      exact ih _ _ j h hj hfj

/-- C13. Cycle repair is best-effort per pair: when the selection query succeeds, whatever
deletes fail, DeleteInvalidHostnameResolves hands the store one delete statement for each
selected hostname, in order (a failed delete does not stop the loop), and every selected
hostname whose own delete succeeds has no row left in the forward store. -/
theorem DeleteInvalidHostnameResolves_best_effort (w : World) (deleteFaults : List GoError) :
    (issuedBy w (DeleteInvalidHostnameResolves none deleteFaults w).1).map (·.stmt)
        = (sqlSelectInvalidHostnames w.hostname_resolve).map Stmt.deleteHostnameResolve
      ∧ ∀ (i : Nat) (h : String),
          (sqlSelectInvalidHostnames w.hostname_resolve)[i]? = some h →
          deleteFaults.getD i none = none →
          h ∉ (DeleteInvalidHostnameResolves none deleteFaults w).1.hostname_resolve.map
            (·.hostname) := by
  have hfn : (DeleteInvalidHostnameResolves none deleteFaults w).1
      = (deleteInvalidLoop (sqlSelectInvalidHostnames w.hostname_resolve) deleteFaults
          (w, none)).1 := by
    simp [DeleteInvalidHostnameResolves, db.QueryOrchestrator, foldl_append_singleton]
  rw [hfn]
  constructor
  · simp [issuedBy, deleteInvalidLoop_executed, Function.comp_def]
  · intro i h hi hf
    exact deleteInvalidLoop_removes _ _ _ i h hi hf

/-- Witness of C13: two cycles; the delete of a fails, the delete of c succeeds. -/
theorem DeleteInvalidHostnameResolves_best_effort_witness :
    "c" ∉ (DeleteInvalidHostnameResolves none [some "lock wait timeout", none]
        { hostname_resolve := [⟨"a", "b", 1⟩, ⟨"b", "a", 2⟩, ⟨"c", "d", 1⟩, ⟨"d", "c", 2⟩] }
        ).1.hostname_resolve.map (·.hostname) :=
  (DeleteInvalidHostnameResolves_best_effort
    { hostname_resolve := [⟨"a", "b", 1⟩, ⟨"b", "a", 2⟩, ⟨"c", "d", 1⟩, ⟨"d", "c", 2⟩] }
    [some "lock wait timeout", none]).2 1 "c" (by decide) (by decide)

theorem sqlInsertHostnameResolve_absent (h r : String) (now : Int) {rows : List ResolveRow}
    (hn : h ∉ rows.map (·.hostname)) :
    sqlInsertHostnameResolve h r now rows = rows ++ [⟨h, r, now⟩] := by
  unfold sqlInsertHostnameResolve
  have hany : ¬ (rows.any fun x => decide (x.hostname = h)) = true := by
    simpa [List.any_eq_true] using hn
  rw [if_neg hany]

theorem DeleteInvalidHostnameResolves_hostname_resolve (w : World)
    (deleteFaults : List GoError) (hok : ∀ f ∈ deleteFaults, f = none) :
    (DeleteInvalidHostnameResolves none deleteFaults w).1.hostname_resolve
      = w.hostname_resolve.filter
          (fun x => x.hostname ∉ sqlSelectInvalidHostnames w.hostname_resolve) := by
  simp [DeleteInvalidHostnameResolves, db.QueryOrchestrator,
    deleteInvalidLoop_hostname_resolve _ _ _ hok, foldl_append_singleton]

/-- C14, as stated, fails: when the two writes happen at the same store time (the default
clock 0 here), the repair pass selects neither entry and both are still there. -/
theorem write_write_repair_same_time_keeps_both :
    (DeleteInvalidHostnameResolves none []
      (WriteResolvedHostname "web1-backend-03" "web1.vip" none none
        (WriteResolvedHostname "web1.vip" "web1-backend-03" none none { }).1).1
      ).1.hostname_resolve
      = [⟨"web1.vip", "web1-backend-03", 0⟩, ⟨"web1-backend-03", "web1.vip", 0⟩] := by
  decide

/-- C14, amended. Write-write-repair: for distinct hostnames h and r and a forward store
with no rows keyed h or r, WriteResolvedHostname(h, r) at store time T1, then
WriteResolvedHostname(r, h) at a strictly later store time T2, then
DeleteInvalidHostnameResolves, with every upsert, the query and every delete succeeding,
leave, among the rows keyed h or r, only the second-written row r->h (at T2). -/
theorem write_write_repair (h r : String) (T1 T2 : Int) (f2 g2 : GoError)
    (deleteFaults : List GoError) (w : World) (hne : h ≠ r)
    (hh : h ∉ w.hostname_resolve.map (·.hostname))
    (hr : r ∉ w.hostname_resolve.map (·.hostname))
    (hlt : T1 < T2) (hok : ∀ f ∈ deleteFaults, f = none) :
    (DeleteInvalidHostnameResolves none deleteFaults
      (WriteResolvedHostname r h none g2
        { (WriteResolvedHostname h r none f2 { w with now := T1 }).1 with now := T2 }).1
      ).1.hostname_resolve.filter (fun x => x.hostname = h ∨ x.hostname = r)
      = [⟨r, h, T2⟩] := by
  have h1 : (WriteResolvedHostname h r none f2 { w with now := T1 }).1.hostname_resolve
      = w.hostname_resolve ++ [⟨h, r, T1⟩] := by
    rw [WriteResolvedHostname_hostname_resolve, if_pos rfl]
    exact sqlInsertHostnameResolve_absent h r T1 hh
  have h2 : (WriteResolvedHostname r h none g2
      { (WriteResolvedHostname h r none f2 { w with now := T1 }).1 with now := T2 }
      ).1.hostname_resolve = w.hostname_resolve ++ [⟨h, r, T1⟩, ⟨r, h, T2⟩] := by
    rw [WriteResolvedHostname_hostname_resolve, if_pos rfl]
    have hr2 : r ∉ (w.hostname_resolve ++ [(⟨h, r, T1⟩ : ResolveRow)]).map (·.hostname) := by
      simp only [List.map_append, List.mem_append, List.map_cons, List.map_nil,
        List.mem_singleton, not_or]
      exact ⟨hr, fun e => hne e.symm⟩
    show sqlInsertHostnameResolve r h T2
      (WriteResolvedHostname h r none f2 { w with now := T1 }).1.hostname_resolve = _
    rw [h1, sqlInsertHostnameResolve_absent r h T2 hr2, List.append_assoc]
    rfl
  rw [DeleteInvalidHostnameResolves_hostname_resolve _ _ hok, h2]
  have hkey : ∀ x ∈ w.hostname_resolve, x.hostname ≠ h ∧ x.hostname ≠ r := fun x hx =>
    ⟨fun e => hh (List.mem_map.2 ⟨x, hx, e⟩), fun e => hr (List.mem_map.2 ⟨x, hx, e⟩)⟩
  have hsel_h : h ∈ sqlSelectInvalidHostnames
      (w.hostname_resolve ++ [⟨h, r, T1⟩, ⟨r, h, T2⟩]) :=
    mem_sqlSelectInvalidHostnames.2
      ⟨⟨r, h, T2⟩, by simp, ⟨h, r, T1⟩, by simp, rfl, rfl, fun e => hne e.symm, hlt, rfl⟩
  have hsel_r : r ∉ sqlSelectInvalidHostnames
      (w.hostname_resolve ++ [⟨h, r, T1⟩, ⟨r, h, T2⟩]) := by
    intro hm
    obtain ⟨latest, hl, early, he, _, e2, _, e4, e5⟩ := mem_sqlSelectInvalidHostnames.1 hm
    have hearly : early = ⟨r, h, T2⟩ := by
      rcases List.mem_append.1 he with he | he
      · exact absurd e5 (hkey early he).2
      · simp only [List.mem_cons, List.mem_singleton, List.not_mem_nil, or_false] at he
        rcases he with he | he
        · subst he; exact absurd e5 hne
        · exact he
    subst hearly
    have hlatest : latest = ⟨h, r, T1⟩ := by
      rcases List.mem_append.1 hl with hl | hl
      · exact absurd e2 (hkey latest hl).1
      · simp only [List.mem_cons, List.mem_singleton, List.not_mem_nil, or_false] at hl
        rcases hl with hl | hl
        · exact hl
        · subst hl; exact absurd e2 (fun e => hne e.symm)
    subst hlatest
    simp only at e4
    omega
  rw [List.filter_append, List.filter_append]
  have hnil : List.filter (fun x => decide (x.hostname = h ∨ x.hostname = r))
      (List.filter (fun x => decide (x.hostname ∉ sqlSelectInvalidHostnames
        (w.hostname_resolve ++ [⟨h, r, T1⟩, ⟨r, h, T2⟩]))) w.hostname_resolve) = [] := by
    rw [List.filter_eq_nil_iff]
    intro x hx
    have := hkey x (List.mem_filter.1 hx).1
    simp [this.1, this.2]
  rw [hnil]
  simp [List.filter_cons, hsel_h, hsel_r, hne, Ne.symm hne]

/-- Witness of C14 amended: web1.vip and web1-backend-03, written at times 1 and 2. -/
theorem write_write_repair_witness :
    (DeleteInvalidHostnameResolves none []
      (WriteResolvedHostname "web1-backend-03" "web1.vip" none none
        { (WriteResolvedHostname "web1.vip" "web1-backend-03" none none
            { ({ } : World) with now := 1 }).1 with now := 2 }).1
      ).1.hostname_resolve.filter
        (fun x => x.hostname = "web1.vip" ∨ x.hostname = "web1-backend-03")
      = [⟨"web1-backend-03", "web1.vip", 2⟩] :=
  write_write_repair "web1.vip" "web1-backend-03" 1 2 none none [] { }
    (by decide) (by decide) (by decide) (by decide) (by simp)

theorem deleteInvalidLoop_keeps (hs : List String) :
    ∀ (faults : List GoError) (acc : World × GoError) (x : ResolveRow),
      x ∈ acc.1.hostname_resolve → x.hostname ∉ hs →
      x ∈ (deleteInvalidLoop hs faults acc).1.hostname_resolve := by
  induction hs with
  | nil => intro faults acc x hx _; simpa [deleteInvalidLoop] using hx
  | cons h rest ih =>
    intro faults acc x hx hn
    rw [deleteInvalidLoop]
    have hxh : x.hostname ≠ h := fun e => hn (e ▸ List.mem_cons_self _ _)
    have hrest : x.hostname ∉ rest := fun e => hn (List.mem_cons_of_mem _ e)
    apply ih _ _ x _ hrest
    rw [ExecOrchestrator_delete_hostname_resolve]
    split
    · exact List.mem_filter.2 ⟨hx, by simpa [sqlDeleteHostnameResolve] using hxh⟩
    · exact hx

theorem DeleteInvalidHostnameResolves_keeps (queryFault : QueryFault)
    (deleteFaults : List GoError) (w : World) (x : ResolveRow)
    (hx : x ∈ w.hostname_resolve)
    (hn : x.hostname ∉ sqlSelectInvalidHostnames w.hostname_resolve) :
    x ∈ (DeleteInvalidHostnameResolves queryFault deleteFaults w).1.hostname_resolve := by
  cases queryFault with
  | none =>
    simp only [DeleteInvalidHostnameResolves, db.QueryOrchestrator, foldl_append_singleton,
      List.nil_append, Option.isSome_none, Bool.false_eq_true, if_false]
    exact deleteInvalidLoop_keeps _ _ _ x hx hn
  | some ke =>
    simpa [DeleteInvalidHostnameResolves, db.QueryOrchestrator] using hx

/-- C15. Equal timestamps never qualify: in a forward store with at most one row per
hostname that holds A->B and B->A with the same resolved_timestamp (for A and B different,
and all the more when they are equal), the query of DeleteInvalidHostnameResolves selects
neither A nor B, and after the pass, whatever the outcome of its query and deletes, both
rows are still in the store. -/
theorem DeleteInvalidHostnameResolves_equal_timestamps (w : World) (A B : String) (t : Int)
    (queryFault : QueryFault) (deleteFaults : List GoError)
    (hunique : UniqueHostnames w.hostname_resolve)
    (hA : ⟨A, B, t⟩ ∈ w.hostname_resolve) (hB : ⟨B, A, t⟩ ∈ w.hostname_resolve) :
    A ∉ sqlSelectInvalidHostnames w.hostname_resolve
      ∧ B ∉ sqlSelectInvalidHostnames w.hostname_resolve
      ∧ ⟨A, B, t⟩ ∈ (DeleteInvalidHostnameResolves queryFault deleteFaults w).1.hostname_resolve
      ∧ ⟨B, A, t⟩ ∈ (DeleteInvalidHostnameResolves queryFault deleteFaults w).1.hostname_resolve
      := by
  have key : ∀ (P Q : String), (⟨P, Q, t⟩ : ResolveRow) ∈ w.hostname_resolve →
      (⟨Q, P, t⟩ : ResolveRow) ∈ w.hostname_resolve →
      P ∉ sqlSelectInvalidHostnames w.hostname_resolve := by
    intro P Q hP hQ hm
    obtain ⟨latest, hl, early, he, _, e2, _, e4, e5⟩ := mem_sqlSelectInvalidHostnames.1 hm
    have hearly : early = ⟨P, Q, t⟩ := unique_row_of_hostname hunique he hP e5
    subst hearly
    have hlatest : latest = ⟨Q, P, t⟩ := unique_row_of_hostname hunique hl hQ e2
    subst hlatest
    simp only at e4
    omega
  have hAsel := key A B hA hB
  have hBsel := key B A hB hA
  exact ⟨hAsel, hBsel, DeleteInvalidHostnameResolves_keeps _ _ _ _ hA hAsel,
    DeleteInvalidHostnameResolves_keeps _ _ _ _ hB hBsel⟩

/-- Witness of C15: a->b and b->a, both at time 7. -/
theorem DeleteInvalidHostnameResolves_equal_timestamps_witness :
    "a" ∉ sqlSelectInvalidHostnames
        ({ hostname_resolve := [⟨"a", "b", 7⟩, ⟨"b", "a", 7⟩] } : World).hostname_resolve
      ∧ "b" ∉ sqlSelectInvalidHostnames
        ({ hostname_resolve := [⟨"a", "b", 7⟩, ⟨"b", "a", 7⟩] } : World).hostname_resolve
      ∧ ⟨"a", "b", 7⟩ ∈ (DeleteInvalidHostnameResolves none []
          { hostname_resolve := [⟨"a", "b", 7⟩, ⟨"b", "a", 7⟩] }).1.hostname_resolve
      ∧ ⟨"b", "a", 7⟩ ∈ (DeleteInvalidHostnameResolves none []
          { hostname_resolve := [⟨"a", "b", 7⟩, ⟨"b", "a", 7⟩] }).1.hostname_resolve :=
  DeleteInvalidHostnameResolves_equal_timestamps
    { hostname_resolve := [⟨"a", "b", 7⟩, ⟨"b", "a", 7⟩] } "a" "b" 7 none []
    (by decide) (by decide) (by decide)

/-- C16, as stated, fails: with the entry upsert succeeding and the history write failing,
both WriteResolvedHostname and WriteHostnameUnresolve return nil (and the history tables
hold no row). -/
theorem history_write_failure_not_returned :
    (WriteResolvedHostname "a" "b" none (some "history down") { }).2 = none
      ∧ (WriteResolvedHostname "a" "b" none (some "history down") { }
          ).1.hostname_resolve_history = []
      ∧ (WriteHostnameUnresolve ⟨"h", 3306⟩ "u" none (some "history down") { }).2 = none
      ∧ (WriteHostnameUnresolve ⟨"h", 3306⟩ "u" none (some "history down") { }
          ).1.hostname_unresolve_history = [] := by
  decide

/-- C16, amended. Failing entry upserts surface as errors: a call of WriteResolvedHostname
or of WriteHostnameUnresolve returns a non-nil error if and only if its entry upsert fails;
a failure of the history write is not returned. -/
theorem entry_upsert_failure_returned (h r u : String) (k : InstanceKey)
    (upsertFault historyFault : GoError) (w : World) :
    ((WriteResolvedHostname h r upsertFault historyFault w).2 ≠ none ↔ upsertFault ≠ none)
      ∧ ((WriteHostnameUnresolve k u upsertFault historyFault w).2 ≠ none
          ↔ upsertFault ≠ none) :=
  ⟨not_congr (WriteResolvedHostname_result h r upsertFault historyFault w),
    not_congr (WriteHostnameUnresolve_result k u upsertFault historyFault w)⟩

/-- C17, as stated, fails: called outside any unit of work, deleteHostnameResolves,
ForgetExpiredHostnameResolves and DeleteInvalidHostnameResolves hand their statements to
the store without the write serializer held. -/
theorem sweeps_and_flush_issue_unserialized :
    (deleteHostnameResolves none { }).1.executed = [⟨.deleteAllHostnameResolves, false⟩]
      ∧ (ForgetExpiredHostnameResolves { } none { }).1.executed
          = [⟨.forgetHostnameResolves 60, false⟩]
      ∧ (DeleteInvalidHostnameResolves none []
          { hostname_resolve := [⟨"a", "b", 1⟩, ⟨"b", "a", 2⟩] }).1.executed
          = [⟨.deleteHostnameResolve "a", false⟩] := by
  decide

/-- C17, amended. Serialized mutation: WriteResolvedHostname, WriteHostnameUnresolve,
DeregisterHostnameUnresolve and ExpireHostnameUnresolve hand every one of their statements
to the store inside a unit of work of ExecDBWriteFunc, whatever fails;
ForgetExpiredHostnameResolves, DeleteInvalidHostnameResolves and deleteHostnameResolves hand
theirs to the store directly, serialized only if their caller already is. -/
theorem serialized_mutation (w : World) (h r u : String) (k : InstanceKey) (cfg : Configuration)
    (f1 f2 : GoError) (queryFault : QueryFault) (deleteFaults : List GoError) :
    (issuedBy w (WriteResolvedHostname h r f1 f2 w).1).all (·.serialized) = true
      ∧ (issuedBy w (WriteHostnameUnresolve k u f1 f2 w).1).all (·.serialized) = true
      ∧ (issuedBy w (DeregisterHostnameUnresolve k f1 w).1).all (·.serialized) = true
      ∧ (issuedBy w (ExpireHostnameUnresolve cfg f1 w).1).all (·.serialized) = true
      ∧ issuedBy w (ForgetExpiredHostnameResolves cfg f1 w).1
          = [⟨.forgetHostnameResolves cfg.ExpiryHostnameResolvesMinutes, w.serialized⟩]
      ∧ issuedBy w (deleteHostnameResolves f1 w).1
          = [⟨.deleteAllHostnameResolves, w.serialized⟩]
      ∧ (issuedBy w (DeleteInvalidHostnameResolves queryFault deleteFaults w).1).all
          (fun i => i.serialized = w.serialized) = true := by
  refine ⟨?_, ?_, ?_, ?_, ?_, ?_, ?_⟩
  · cases f1 <;> cases f2 <;> by_cases hr : h = r <;>
      simp [WriteResolvedHostname, ExecDBWriteFunc, db.ExecOrchestrator, Stmt.apply, issuedBy,
        hr]
  · cases f1 <;> cases f2 <;>
      simp [WriteHostnameUnresolve, ExecDBWriteFunc, db.ExecOrchestrator, Stmt.apply, issuedBy]
  · cases f1 <;>
      simp [DeregisterHostnameUnresolve, ExecDBWriteFunc, db.ExecOrchestrator, Stmt.apply,
        issuedBy]
  · cases f1 <;>
      simp [ExpireHostnameUnresolve, ExecDBWriteFunc, db.ExecOrchestrator, Stmt.apply,
        issuedBy]
  · cases f1 <;>
      simp [ForgetExpiredHostnameResolves, db.ExecOrchestrator, Stmt.apply, issuedBy]
  · cases f1 <;>
      simp [deleteHostnameResolves, db.ExecOrchestrator, Stmt.apply, issuedBy]
  · cases queryFault with
    | none =>
      simp [DeleteInvalidHostnameResolves, db.QueryOrchestrator, issuedBy,
        deleteInvalidLoop_executed]
    | some ke =>
      simp [DeleteInvalidHostnameResolves, db.QueryOrchestrator, issuedBy]

/-- C18. Deregistration: when its delete statement succeeds, DeregisterHostnameUnresolve(k)
returns nil whether or not a row for k.Hostname existed; afterwards the reverse store has no
row keyed k.Hostname, so that readUnresolvedHostname(k.Hostname) returns k.Hostname whatever
the outcome of its query; the rows keyed by other hostnames are as before, and the forward
store, the history tables and database_instance are unchanged. -/
theorem DeregisterHostnameUnresolve_frame (k : InstanceKey) (w : World) (fault : QueryFault) :
    (DeregisterHostnameUnresolve k none w).2 = none
      ∧ k.Hostname ∉ (DeregisterHostnameUnresolve k none w).1.hostname_unresolve.map
          (·.hostname)
      ∧ (readUnresolvedHostname k.Hostname fault (DeregisterHostnameUnresolve k none w).1).1
          = k.Hostname
      ∧ (DeregisterHostnameUnresolve k none w).1.hostname_unresolve.filter
          (fun x => ¬ (x.hostname = k.Hostname))
          = w.hostname_unresolve.filter (fun x => ¬ (x.hostname = k.Hostname))
      ∧ (DeregisterHostnameUnresolve k none w).1.hostname_resolve = w.hostname_resolve
      ∧ (DeregisterHostnameUnresolve k none w).1.hostname_resolve_history
          = w.hostname_resolve_history
      ∧ (DeregisterHostnameUnresolve k none w).1.hostname_unresolve_history
          = w.hostname_unresolve_history
      ∧ (DeregisterHostnameUnresolve k none w).1.database_instance = w.database_instance := by
  have hstep : (DeregisterHostnameUnresolve k none w).1.hostname_unresolve
      = w.hostname_unresolve.filter (fun x => ¬ (x.hostname = k.Hostname)) := by
    simp [DeregisterHostnameUnresolve, ExecDBWriteFunc, db.ExecOrchestrator, Stmt.apply,
      sqlDeleteHostnameUnresolve]
  have habsent : k.Hostname ∉ (DeregisterHostnameUnresolve k none w).1.hostname_unresolve.map
      (·.hostname) := by
    rw [hstep]
    intro hm
    obtain ⟨x, hx, hxh⟩ := List.mem_map.1 hm
    have := (List.mem_filter.1 hx).2
    simp only [decide_eq_true_eq] at this
    exact this hxh
  refine ⟨?_, habsent, ?_, ?_, ?_, ?_, ?_, ?_⟩
  · simp [DeregisterHostnameUnresolve, ExecDBWriteFunc, db.ExecOrchestrator, log.Errore]
  · have hnil := sqlSelectUnresolvedHostname_eq_nil habsent
    cases fault <;> simp [readUnresolvedHostname, db.QueryOrchestrator, hnil]
  · rw [hstep, List.filter_filter]
    simp
  all_goals
    simp [DeregisterHostnameUnresolve, ExecDBWriteFunc, db.ExecOrchestrator, Stmt.apply]

theorem deleteHostnameResolves_world (w : World) :
    (deleteHostnameResolves none w).1
      = { w with
          hostname_resolve := []
          executed := w.executed ++ [⟨.deleteAllHostnameResolves, w.serialized⟩] } := by
  simp [deleteHostnameResolves, db.ExecOrchestrator, Stmt.apply]

/-- C19. Full flush: for every store state, a deleteHostnameResolves whose delete statement
succeeds returns nil and leaves the forward store empty: ReadResolvedHostname then returns
the empty string for every hostname and readAllHostnameResolves an empty list, whatever the
outcome of their queries; the resolve-history table, the reverse store, its history and
database_instance are unchanged. -/
theorem deleteHostnameResolves_flush (w : World) (h : String) (fault : QueryFault) :
    (deleteHostnameResolves none w).2 = none
      ∧ (deleteHostnameResolves none w).1.hostname_resolve = []
      ∧ (ReadResolvedHostname h fault (deleteHostnameResolves none w).1).1 = ""
      ∧ (readAllHostnameResolves fault (deleteHostnameResolves none w).1).1 = []
      ∧ (deleteHostnameResolves none w).1.hostname_resolve_history
          = w.hostname_resolve_history
      ∧ (deleteHostnameResolves none w).1.hostname_unresolve = w.hostname_unresolve
      ∧ (deleteHostnameResolves none w).1.hostname_unresolve_history
          = w.hostname_unresolve_history
      ∧ (deleteHostnameResolves none w).1.database_instance = w.database_instance := by
  rw [deleteHostnameResolves_world]
  refine ⟨by simp [deleteHostnameResolves, db.ExecOrchestrator], rfl, ?_, ?_, rfl, rfl, rfl,
    rfl⟩
  · cases fault <;>
      simp [ReadResolvedHostname, db.QueryOrchestrator, sqlSelectResolvedHostname]
  · cases fault <;>
      simp [readAllHostnameResolves, db.QueryOrchestrator, sqlSelectAllHostnameResolves]

theorem HasString_iff (elem : String) (arr : List String) :
    ssl.HasString elem arr = true ↔ elem ∈ arr := by
  induction arr with
  | nil => simp [ssl.HasString]
  | cons s arr ih =>
    by_cases hs : s = elem
    · simp [ssl.HasString, hs]
    · simp [ssl.HasString, hs, ih, Ne.symm hs]

theorem Verify_loopOUs_iff (validOUs s : List String) :
    ssl.Verify.loopOUs validOUs s = true ↔ ∃ ou ∈ s, ssl.HasString ou validOUs = true := by
  induction s with
  | nil => simp [ssl.Verify.loopOUs]
  | cons ou s ih =>
    by_cases h : ssl.HasString ou validOUs = true
    · simp [ssl.Verify.loopOUs, h]
    · simp [ssl.Verify.loopOUs, h, ih]

theorem Verify_loopChains_iff (validOUs : List String) (chains : List ssl.Chain) :
    ssl.Verify.loopChains validOUs chains = true ↔
      ∃ chain ∈ chains, ∃ ou ∈ chain.leaf.Subject.OrganizationalUnit,
        ssl.HasString ou validOUs = true := by
  induction chains with
  | nil => simp [ssl.Verify.loopChains]
  | cons chain chains ih =>
    by_cases h : ssl.Verify.loopOUs validOUs chain.leaf.Subject.OrganizationalUnit = true
    · have h2 := (Verify_loopOUs_iff _ _).1 h
      simp [ssl.Verify.loopChains, h, h2]
    · have h2 : ¬ ∃ ou ∈ chain.leaf.Subject.OrganizationalUnit,
          ssl.HasString ou validOUs = true := fun e => h ((Verify_loopOUs_iff _ _).2 e)
      simp only [ssl.Verify.loopChains, h, if_false, ih, List.mem_cons, exists_eq_or_imp,
        h2, false_or, Bool.false_eq_true]

/-- C20, as stated, fails: with the default configuration (status endpoint /api/status,
StatusOUVerify off) a request for the status endpoint that has no TLS state is accepted:
Verify returns nil. -/
theorem Verify_accepts_status_request_without_tls :
    ssl.Verify { } ⟨"/api/status", none⟩ ["dba"] = none := by
  decide

/-- C20, amended. Client OU verification: when the URL of the request contains the status
endpoint and StatusOUVerify is off, Verify returns nil; in every other case Verify returns
nil if and only if the request has a TLS state one of whose verified chains has a leaf
certificate whose subject carries an organizational unit that HasString finds in validOUs,
a request with no TLS state being rejected with the error No TLS and one with no matching
OU with the error Invalid OU; and HasString finds exactly the elements of the list. -/
theorem Verify_client_OU (cfg : Configuration) (r : ssl.Request) (validOUs : List String) :
    (strings.Contains r.URL cfg.StatusEndpoint = true ∧ cfg.StatusOUVerify = false →
        ssl.Verify cfg r validOUs = none)
      ∧ (¬ (strings.Contains r.URL cfg.StatusEndpoint = true ∧ cfg.StatusOUVerify = false) →
          (ssl.Verify cfg r validOUs = none ↔
            ∃ tls, r.TLS = some tls ∧ ∃ chain ∈ tls.VerifiedChains,
              ∃ ou ∈ chain.leaf.Subject.OrganizationalUnit,
                ssl.HasString ou validOUs = true)
          ∧ (r.TLS = none → ssl.Verify cfg r validOUs = some "No TLS")
          ∧ (ssl.Verify cfg r validOUs ≠ none → r.TLS ≠ none →
              ssl.Verify cfg r validOUs = some "Invalid OU"))
      ∧ ∀ (elem : String) (arr : List String), ssl.HasString elem arr = true ↔ elem ∈ arr := by
  refine ⟨?_, ?_, HasString_iff⟩
  · rintro ⟨hc, hv⟩
    simp [ssl.Verify, hc, hv]
  · intro hbypass
    have hcond : (strings.Contains r.URL cfg.StatusEndpoint && !cfg.StatusOUVerify) = false := by
      cases hc : strings.Contains r.URL cfg.StatusEndpoint <;>
        cases hv : cfg.StatusOUVerify <;> simp_all
    cases hT : r.TLS with
    | none => simp [ssl.Verify, hcond, hT]
    | some tls =>
      by_cases hl : ssl.Verify.loopChains validOUs tls.VerifiedChains = true
      · have := (Verify_loopChains_iff _ _).1 hl
        simp [ssl.Verify, hcond, hT, hl, this]
      · have hn : ¬ ∃ chain ∈ tls.VerifiedChains,
            ∃ ou ∈ chain.leaf.Subject.OrganizationalUnit,
              ssl.HasString ou validOUs = true := fun e => hl ((Verify_loopChains_iff _ _).2 e)
        have hv : ssl.Verify cfg r validOUs = some "Invalid OU" := by
          simp [ssl.Verify, hcond, hT, hl]
        rw [hv]
        refine ⟨⟨fun e => by simp at e, ?_⟩, fun e => by simp at e, fun _ _ => rfl⟩
        rintro ⟨tls2, ht2, he⟩
        cases ht2
        exact absurd he hn

/-- Witness of C20 amended: with StatusOUVerify on, the status request without TLS state is
rejected. -/
theorem Verify_client_OU_witness :
    ssl.Verify { StatusOUVerify := true } ⟨"/api/status", none⟩ ["dba"] = some "No TLS" :=
  ((Verify_client_OU { StatusOUVerify := true } ⟨"/api/status", none⟩ ["dba"]).2.1
    (by decide)).2.1 rfl

theorem insertLoop_ok (pool : String) (now : Int) (ks : List InstanceKey) :
    ∀ (faults : List GoError) (tx rows : List DatabaseInstancePoolRow),
      writePoolInstances.insertLoop pool now ks faults tx = .ok rows →
      rows = tx ++ ks.map (fun k => ⟨k.Hostname, k.Port, pool, now⟩) := by
  induction ks with
  | nil =>
    intro faults tx rows h
    simp only [writePoolInstances.insertLoop, Except.ok.injEq] at h
    simp [h]
  | cons k ks ih =>
    intro faults tx rows h
    rw [writePoolInstances.insertLoop] at h
    cases hf : faults.head?.join with
    | some e => rw [hf] at h; simp at h
    | none =>
      rw [hf] at h
      have := ih _ _ _ h
      simp [this, sqlInsertPoolInstance]

theorem writeFunc_database_instance_pool (pool : String) (ks : List InstanceKey)
    (faults : PoolWriteFaults) (w w1 : World) (err : GoError)
    (h : writePoolInstances.writeFunc pool ks faults w = some (w1, err)) :
    (err ≠ none → w1 = w)
      ∧ (err = none → faults.commit ≠ none → w1 = w)
      ∧ (err = none → faults.commit = none →
          w1 = { w with
            database_instance_pool := sqlDeletePool pool w.database_instance_pool
              ++ ks.map (fun k => ⟨k.Hostname, k.Port, pool, w.now⟩) }) := by
  have herr : ∀ e : GoError, e.isSome = true → some (w, log.Errore e) = some (w1, err) →
      (err ≠ none → w1 = w)
        ∧ (err = none → faults.commit ≠ none → w1 = w)
        ∧ (err = none → faults.commit = none →
            w1 = { w with
              database_instance_pool := sqlDeletePool pool w.database_instance_pool
                ++ ks.map (fun k => ⟨k.Hostname, k.Port, pool, w.now⟩) }) := by
    intro e he heq
    simp only [Option.some.injEq, Prod.mk.injEq, log.Errore] at heq
    obtain ⟨h1, h2⟩ := heq
    subst h1; subst h2
    have hne : e ≠ none := Option.isSome_iff_ne_none.1 he
    exact ⟨fun _ => rfl, fun h0 => absurd h0 hne, fun h0 => absurd h0 hne⟩
  unfold writePoolInstances.writeFunc at h
  by_cases ho : faults.openOrchestrator.isSome = true
  · rw [if_pos ho] at h
    exact herr _ ho h
  rw [if_neg ho] at h
  by_cases hb : faults.beginTx.isSome = true
  · rw [if_pos hb] at h
    simp at h
  rw [if_neg hb] at h
  by_cases hpd : faults.prepareDelete.isSome = true
  · rw [if_pos hpd] at h
    simp at h
  rw [if_neg hpd] at h
  by_cases hed : faults.execDelete.isSome = true
  · rw [if_pos hed] at h
    exact herr _ hed h
  rw [if_neg hed] at h
  cases hpi : faults.prepareInsert with
  | some e =>
    rw [hpi] at h
    cases ks with
    | nil => exact herr (some e) rfl h
    | cons k ks => simp at h
  | none =>
    rw [hpi] at h
    simp only at h
    cases hl : writePoolInstances.insertLoop pool w.now ks faults.execInsert
        (sqlDeletePool pool w.database_instance_pool) with
    | error e =>
      rw [hl] at h
      exact herr (some e) rfl h
    | ok rows =>
      rw [hl] at h
      simp only at h
      have hrows := insertLoop_ok _ _ _ _ _ _ hl
      by_cases hc : faults.commit.isSome = true
      · rw [if_pos hc] at h
        simp only [Option.some.injEq, Prod.mk.injEq] at h
        obtain ⟨h1, h2⟩ := h
        subst h1; subst h2
        have hne : faults.commit ≠ none := Option.isSome_iff_ne_none.1 hc
        exact ⟨fun e => absurd rfl e, fun _ _ => rfl, fun _ hcn => absurd hcn hne⟩
      · rw [if_neg hc] at h
        simp only [Option.some.injEq, Prod.mk.injEq] at h
        obtain ⟨h1, h2⟩ := h
        subst h1; subst h2
        refine ⟨fun e => absurd rfl e, fun _ hcn => ?_, fun _ _ => by rw [hrows]⟩
        exact absurd (Option.isSome_iff_ne_none.2 hcn) hc

theorem writePoolInstances_effect (pool : String) (ks : List InstanceKey)
    (faults : PoolWriteFaults) (w w1 : World) (err : GoError)
    (h : writePoolInstances pool ks faults w = some (w1, err)) :
    (err ≠ none → w1.database_instance_pool = w.database_instance_pool)
      ∧ (err = none → faults.commit ≠ none →
          w1.database_instance_pool = w.database_instance_pool)
      ∧ (err = none → faults.commit = none →
          w1.database_instance_pool = sqlDeletePool pool w.database_instance_pool
            ++ ks.map (fun k => ⟨k.Hostname, k.Port, pool, w.now⟩)) := by
  unfold writePoolInstances at h
  cases hf : writePoolInstances.writeFunc pool ks faults { w with serialized := true } with
  | none => rw [hf] at h; simp at h
  | some r =>
    obtain ⟨w2, e2⟩ := r
    rw [hf] at h
    simp only [ExecDBWriteFunc, hf, Option.getD_some, Option.some.injEq, Prod.mk.injEq] at h
    obtain ⟨h1, h2⟩ := h
    subst h1; subst h2
    obtain ⟨a, b, c⟩ := writeFunc_database_instance_pool pool ks faults _ _ _ hf
    refine ⟨fun he => ?_, fun he hc => ?_, fun he hc => ?_⟩
    · rw [a he]
    · rw [b he hc]
    · rw [c he hc]

/-- C21, the code at a failing input: the pool p holds h0:3306; writePoolInstances for p and
the one key h1:3306 runs with every statement succeeding and the commit failing.  The call
returns nil and the table still holds the row of h0, not a row for h1. -/
theorem writePoolInstances_returns_nil_on_failed_commit :
    writePoolInstances "p" [⟨"h1", 3306⟩] { commit := some "server has gone away" }
        { database_instance_pool := [⟨"h0", 3306, "p", 0⟩], now := 5 }
      = some ({ database_instance_pool := [⟨"h0", 3306, "p", 0⟩], now := 5 }, none) := by
  decide

theorem sqlSelectClusterPoolInstances_where (c p : String)
    (instances : List DatabaseInstanceRow) (pools : List DatabaseInstancePoolRow)
    (aliases : List ClusterAliasRow) :
    sqlSelectClusterPoolInstances (some (c, p)) instances pools aliases
      = (sqlSelectClusterPoolInstances none instances pools aliases).filter
          (fun a => a.ClusterName = c ∧ (p = "" ∨ p = a.Pool)) := by
  simp only [sqlSelectClusterPoolInstances, List.filter_flatMap, List.filter_map]
  apply List.flatMap_congr
  intro di _
  apply List.flatMap_congr
  intro dip _
  congr 1
  simp [List.filter_filter, Function.comp_def]

theorem mem_foldl_append_singleton {α : Type} (l : List α) (x : α) :
    x ∈ l.foldl (fun acc m => acc ++ [m]) [] ↔ x ∈ l := by
  rw [foldl_append_singleton]; simp

theorem mem_ReadClusterPoolInstances (c p : String) (fault : QueryFault) (w : World)
    (a : ClusterPoolInstance) (h : a ∈ (ReadClusterPoolInstances c p fault w).1) :
    a ∈ sqlSelectClusterPoolInstances (if c ≠ "" then some (c, p) else none)
      w.database_instance w.database_instance_pool w.cluster_alias := by
  cases fault with
  | none =>
    simpa [ReadClusterPoolInstances, db.QueryOrchestrator, foldl_append_singleton] using h
  | some ke =>
    simp [ReadClusterPoolInstances, db.QueryOrchestrator] at h

theorem ReadClusterPoolInstances_ok (c p : String) (w : World) :
    (ReadClusterPoolInstances c p none w).1
      = sqlSelectClusterPoolInstances (if c ≠ "" then some (c, p) else none)
          w.database_instance w.database_instance_pool w.cluster_alias := by
  simp [ReadClusterPoolInstances, db.QueryOrchestrator, foldl_append_singleton]

theorem PoolInstancesMap_add_inv (S : ClusterPoolInstance → Prop) (m : PoolInstancesMap)
    (a : ClusterPoolInstance) (ha : S a)
    (hm : ∀ e ∈ m, (∃ b, S b ∧ b.Pool = e.1)
      ∧ ∀ k ∈ e.2, ∃ b, S b ∧ b.Pool = e.1 ∧ k = { Hostname := b.Hostname, Port := b.Port }) :
    ∀ e ∈ PoolInstancesMap.add m a, (∃ b, S b ∧ b.Pool = e.1)
      ∧ ∀ k ∈ e.2, ∃ b, S b ∧ b.Pool = e.1 ∧ k = { Hostname := b.Hostname, Port := b.Port } := by
  intro e he
  unfold PoolInstancesMap.add at he
  obtain ⟨e0, he0, hfe⟩ := List.mem_map.1 he
  have hq0 : (∃ b, S b ∧ b.Pool = e0.1)
      ∧ ∀ k ∈ e0.2, ∃ b, S b ∧ b.Pool = e0.1
        ∧ k = { Hostname := b.Hostname, Port := b.Port } := by
    split at he0
    · exact hm e0 he0
    · rcases List.mem_append.1 he0 with h | h
      · exact hm e0 h
      · have : e0 = (a.Pool, []) := by simpa using h
        subst this
        exact ⟨⟨a, ha, rfl⟩, fun k hk => by simp at hk⟩
  by_cases hp : e0.1 = a.Pool
  · rw [if_pos hp] at hfe
    subst hfe
    refine ⟨hq0.1, fun k hk => ?_⟩
    rcases List.mem_append.1 hk with h | h
    · exact hq0.2 k h
    · have : k = { Hostname := a.Hostname, Port := a.Port } := by simpa using h
      exact ⟨a, ha, hp.symm, this⟩
  · rw [if_neg hp] at hfe
    subst hfe
    exact hq0

theorem PoolInstancesMap_foldl_inv (S : ClusterPoolInstance → Prop)
    (l : List ClusterPoolInstance) :
    ∀ (m : PoolInstancesMap), (∀ a ∈ l, S a) →
      (∀ e ∈ m, (∃ b, S b ∧ b.Pool = e.1)
        ∧ ∀ k ∈ e.2, ∃ b, S b ∧ b.Pool = e.1
          ∧ k = { Hostname := b.Hostname, Port := b.Port }) →
      ∀ e ∈ l.foldl PoolInstancesMap.add m, (∃ b, S b ∧ b.Pool = e.1)
        ∧ ∀ k ∈ e.2, ∃ b, S b ∧ b.Pool = e.1
          ∧ k = { Hostname := b.Hostname, Port := b.Port } := by
  induction l with
  | nil => intro m _ hm; simpa using hm
  | cons a l ih =>
    intro m hl hm
    rw [List.foldl_cons]
    exact ih _ (fun b hb => hl b (List.mem_cons_of_mem _ hb))
      (PoolInstancesMap_add_inv S m a (hl a (List.mem_cons_self _ _)) hm)

/-- C22, as stated, fails: with an empty cluster name the query has no where clause, so a
read for the pool p1 returns an association of the pool p2. -/
theorem ReadClusterPoolInstances_ignores_pool_without_cluster :
    (ReadClusterPoolInstances "" "p1" none
        { database_instance := [{ hostname := "h", port := 3306, cluster_name := "c" }],
          database_instance_pool := [⟨"h", 3306, "p2", 0⟩] }).1
      = [{ ClusterName := "c", ClusterAlias := "c", Pool := "p2", Hostname := "h",
           Port := 3306 }]
    ∧ (ReadClusterPoolInstancesMap "" "p1" none
        { database_instance := [{ hostname := "h", port := 3306, cluster_name := "c" }],
          database_instance_pool := [⟨"h", 3306, "p2", 0⟩] }).1
      = some [("p2", [⟨"h", 3306⟩])] := by
  decide

/-- C22, amended. Pool filter: for every non-empty cluster name c and every pool name p,
every association returned by ReadClusterPoolInstances(c, p) belongs to cluster c and, when
p is not empty, to pool p; every entry of the map returned by ReadClusterPoolInstancesMap
(c, p) is then keyed by p when p is not empty, and lists only instance keys of associations
that the read returns for the entry's pool; with p empty no pool restriction applies (the
read returns every association of the cluster); and with c empty the read returns what
ReadAllClusterPoolInstances returns, whatever p is. -/
theorem ReadClusterPoolInstances_filter (c p : String) (fault : QueryFault) (w : World) :
    (c ≠ "" → ∀ a ∈ (ReadClusterPoolInstances c p fault w).1,
        a.ClusterName = c ∧ (p ≠ "" → a.Pool = p))
      ∧ (c ≠ "" → ∀ m, (ReadClusterPoolInstancesMap c p fault w).1 = some m →
          ∀ e ∈ m, (p ≠ "" → e.1 = p)
            ∧ ∀ k ∈ e.2, ∃ a ∈ (ReadClusterPoolInstances c p fault w).1,
                a.Pool = e.1 ∧ k = { Hostname := a.Hostname, Port := a.Port })
      ∧ (c ≠ "" → (ReadClusterPoolInstances c "" none w).1
          = (ReadAllClusterPoolInstances none w).1.filter (fun a => a.ClusterName = c))
      ∧ ReadClusterPoolInstances "" p fault w = ReadAllClusterPoolInstances fault w := by
  have hread : c ≠ "" → ∀ a ∈ (ReadClusterPoolInstances c p fault w).1,
      a.ClusterName = c ∧ (p ≠ "" → a.Pool = p) := by
    intro hc a ha
    have hm := mem_ReadClusterPoolInstances c p fault w a ha
    rw [if_pos hc, sqlSelectClusterPoolInstances_where] at hm
    have hf := (List.mem_filter.1 hm).2
    simp only [decide_eq_true_eq] at hf
    refine ⟨hf.1, fun hp => ?_⟩
    rcases hf.2 with h | h
    · exact absurd h hp
    · exact h.symm
  refine ⟨hread, ?_, ?_, ?_⟩
  · intro hc m hm e he
    have hmap : m = (ReadClusterPoolInstances c p fault w).1.foldl PoolInstancesMap.add [] := by
      simp only [ReadClusterPoolInstancesMap] at hm
      by_cases hs : (ReadClusterPoolInstances c p fault w).2.isSome = true
      · rw [if_pos hs] at hm
        simp at hm
      · rw [if_neg hs] at hm
        simpa using hm.symm
    subst hmap
    have hinv := PoolInstancesMap_foldl_inv
      (fun a => a ∈ (ReadClusterPoolInstances c p fault w).1)
      (ReadClusterPoolInstances c p fault w).1 [] (fun a ha => ha)
      (fun e he => by simp at he) e he
    obtain ⟨⟨b, hb, hbp⟩, hkeys⟩ := hinv
    refine ⟨fun hp => ?_, fun k hk => ?_⟩
    · rw [← hbp]
      exact (hread hc b hb).2 hp
    · obtain ⟨a, ha, hap, hk2⟩ := hkeys k hk
      exact ⟨a, ha, hap, hk2⟩
  · intro hc
    rw [ReadClusterPoolInstances_ok, if_pos hc, sqlSelectClusterPoolInstances_where]
    simp [ReadAllClusterPoolInstances, ReadClusterPoolInstances_ok]
  · rfl

/-- Witness of C22 amended: cluster c has h in pool p2; the read for cluster c and pool p1
returns nothing, the read for cluster c and the empty pool returns the association. -/
theorem ReadClusterPoolInstances_filter_witness :
    (ReadClusterPoolInstances "c" "" none
        { database_instance := [{ hostname := "h", port := 3306, cluster_name := "c" }],
          database_instance_pool := [⟨"h", 3306, "p2", 0⟩] }).1
      = (ReadAllClusterPoolInstances none
        { database_instance := [{ hostname := "h", port := 3306, cluster_name := "c" }],
          database_instance_pool := [⟨"h", 3306, "p2", 0⟩] }).1.filter
          (fun a => a.ClusterName = "c") :=
  (ReadClusterPoolInstances_filter "c" "" none
    { database_instance := [{ hostname := "h", port := 3306, cluster_name := "c" }],
      database_instance_pool := [⟨"h", 3306, "p2", 0⟩] }).2.2.1 (by decide)

theorem WriteResolvedHostname_hostname_resolve_history (h r : String) (f1 f2 : GoError)
    (w : World) :
    (WriteResolvedHostname h r f1 f2 w).1.hostname_resolve_history =
      if f1 = none ∧ h ≠ r ∧ f2 = none then
        sqlInsertHostnameResolveHistory h r w.now w.hostname_resolve_history
      else w.hostname_resolve_history := by
  cases f1 <;> cases f2 <;> by_cases hr : h = r <;>
    simp [WriteResolvedHostname, ExecDBWriteFunc, db.ExecOrchestrator, Stmt.apply, hr]

theorem sqlInsertHostnameResolveHistory_resolved_hostnames (h r : String) (now : Int)
    (rows : List ResolveRow) :
    (sqlInsertHostnameResolveHistory h r now rows).map (·.resolved_hostname) =
      if r ∈ rows.map (·.resolved_hostname) then rows.map (·.resolved_hostname)
      else rows.map (·.resolved_hostname) ++ [r] := by
  unfold sqlInsertHostnameResolveHistory
  by_cases hm : r ∈ rows.map (·.resolved_hostname)
  · have hany : (rows.any fun x => decide (x.resolved_hostname = r)) = true := by
      simpa [List.any_eq_true] using hm
    rw [if_pos hany, if_pos hm, List.map_map]
    apply List.map_congr_left
    intro x _
    by_cases hx : x.resolved_hostname = r <;> simp [hx]
  · have hany : ¬ (rows.any fun x => decide (x.resolved_hostname = r)) = true := by
      simpa [List.any_eq_true] using hm
    rw [if_neg hany, if_neg hm]
    simp

theorem sqlInsertHostnameResolveHistory_unique (h r : String) (now : Int)
    {rows : List ResolveRow} (hu : UniqueResolvedHostnames rows) :
    UniqueResolvedHostnames (sqlInsertHostnameResolveHistory h r now rows) := by
  unfold UniqueResolvedHostnames at *
  rw [sqlInsertHostnameResolveHistory_resolved_hostnames]
  split
  · exact hu
  · rename_i hm
    exact List.Nodup.append hu (List.nodup_singleton r) (by simpa using hm)

theorem filter_resolved_hostname_eq_nil {r : String} {rows : List ResolveRow}
    (hn : r ∉ rows.map (·.resolved_hostname)) :
    rows.filter (fun x => x.resolved_hostname = r) = [] := by
  simp only [List.filter_eq_nil_iff]
  intro x hx hxr
  exact hn (List.mem_map.2 ⟨x, hx, by simpa using hxr⟩)

theorem filter_update_history_self (h r : String) (now : Int) (hne : h ≠ r)
    (rows : List ResolveRow) (hu : UniqueResolvedHostnames rows)
    (hm : r ∈ rows.map (·.resolved_hostname)) :
    (rows.map (fun x =>
        if x.resolved_hostname = r then
          { x with
            hostname := if h ≠ x.resolved_hostname then h else x.hostname,
            resolved_timestamp := now }
        else x)).filter (fun x => x.resolved_hostname = r) = [⟨h, r, now⟩] := by
  induction rows with
  | nil => simp at hm
  | cons x xs ih =>
    have hu2 : (x.resolved_hostname ∉ xs.map (·.resolved_hostname))
        ∧ UniqueResolvedHostnames xs := by
      simpa [UniqueResolvedHostnames] using hu
    by_cases hx : x.resolved_hostname = r
    · have hn : r ∉ (xs.map (fun x =>
          if x.resolved_hostname = r then
            { x with
              hostname := if h ≠ x.resolved_hostname then h else x.hostname,
              resolved_timestamp := now }
          else x)).map (·.resolved_hostname) := by
        rw [List.map_map]
        have : xs.map ((fun x => x.resolved_hostname) ∘ fun x =>
            if x.resolved_hostname = r then
              { x with
                hostname := if h ≠ x.resolved_hostname then h else x.hostname,
                resolved_timestamp := now }
            else x) = xs.map (·.resolved_hostname) := by
          apply List.map_congr_left
          intro y _
          by_cases hy : y.resolved_hostname = r <;> simp [hy]
        rw [this, ← hx]
        exact hu2.1
      have hnil := filter_resolved_hostname_eq_nil hn
      rw [List.map_cons, List.filter_cons, hnil]
      simp [hx, hne]
    · have hm2 : r ∈ xs.map (·.resolved_hostname) := by
        simp only [List.map_cons, List.mem_cons] at hm
        rcases hm with hm | hm
        · exact absurd hm.symm hx
        · exact hm
      have := ih hu2.2 hm2
      rw [List.map_cons, List.filter_cons, this]
      simp [hx]

theorem filter_sqlInsertHostnameResolveHistory_self (h r : String) (now : Int) (hne : h ≠ r)
    {rows : List ResolveRow} (hu : UniqueResolvedHostnames rows) :
    (sqlInsertHostnameResolveHistory h r now rows).filter (fun x => x.resolved_hostname = r)
      = [⟨h, r, now⟩] := by
  unfold sqlInsertHostnameResolveHistory
  split
  · rename_i hany
    have hm : r ∈ rows.map (·.resolved_hostname) := by simpa [List.any_eq_true] using hany
    exact filter_update_history_self h r now hne rows hu hm
  · rename_i hany
    have hn : r ∉ rows.map (·.resolved_hostname) := by simpa [List.any_eq_true] using hany
    simp [List.filter_append, filter_resolved_hostname_eq_nil hn]

theorem WriteResolvedHostname_history_unique (h r : String) (f1 f2 : GoError) (w : World)
    (hu : UniqueResolvedHostnames w.hostname_resolve_history) :
    UniqueResolvedHostnames (WriteResolvedHostname h r f1 f2 w).1.hostname_resolve_history := by
  rw [WriteResolvedHostname_hostname_resolve_history]
  split
  · exact sqlInsertHostnameResolveHistory_unique _ _ _ hu
  · exact hu

/-- C23. History coalescing: on a resolve history with at most one row per resolved
hostname, after WriteResolvedHostname(h1, r) at store time T1, whatever its outcome, and
then a WriteResolvedHostname(h2, r) at store time T2, with h2 different from r, that
returned nil and whose history statement was carried out, the history holds exactly one row
for r: its hostname is h2 and its timestamp is T2, the time of the second write. -/
theorem WriteResolvedHostname_history_coalesces (w : World) (r h1 h2 : String) (T1 T2 : Int)
    (f1 f2 g1 : GoError)
    (hunique : UniqueResolvedHostnames w.hostname_resolve_history)
    (hne2 : h2 ≠ r)
    (hok2 : (WriteResolvedHostname h2 r g1 none
      { (WriteResolvedHostname h1 r f1 f2 { w with now := T1 }).1 with now := T2 }).2
        = none) :
    (WriteResolvedHostname h2 r g1 none
        { (WriteResolvedHostname h1 r f1 f2 { w with now := T1 }).1 with now := T2 }
        ).1.hostname_resolve_history.filter (fun x => x.resolved_hostname = r)
      = [⟨h2, r, T2⟩] := by
  have hg : g1 = none := (WriteResolvedHostname_result _ _ _ _ _).1 hok2
  have hu1 := WriteResolvedHostname_history_unique h1 r f1 f2 { w with now := T1 } hunique
  rw [WriteResolvedHostname_hostname_resolve_history, if_pos ⟨hg, hne2, rfl⟩]
  exact filter_sqlInsertHostnameResolveHistory_self h2 r T2 hne2 hu1

/-- Witness of C23: a and then b resolve to r, at times 1 and 2. -/
theorem WriteResolvedHostname_history_coalesces_witness :
    (WriteResolvedHostname "b" "r" none none
        { (WriteResolvedHostname "a" "r" none none { ({ } : World) with now := 1 }).1
            with now := 2 }
        ).1.hostname_resolve_history.filter (fun x => x.resolved_hostname = "r")
      = [⟨"b", "r", 2⟩] :=
  WriteResolvedHostname_history_coalesces { } "r" "a" "b" 1 2 none none none
    (by decide) (by decide) (by decide)

theorem DeleteInvalidHostnameResolves_nothing_selected (v : World) (faults : List GoError)
    (h : sqlSelectInvalidHostnames v.hostname_resolve = []) :
    DeleteInvalidHostnameResolves none faults v = (v, none) := by
  simp [DeleteInvalidHostnameResolves, db.QueryOrchestrator, h, deleteInvalidLoop]

/-- C24. Cycle repair reaches a fixed point in one pass: for every forward store, after a
DeleteInvalidHostnameResolves whose query and deletes all succeed, no pair of rows (latest,
early) of the store satisfies the selection predicate, the query selects nothing, and an
immediately repeated pass returns nil and leaves the whole world, the store included, as it
is. -/
theorem DeleteInvalidHostnameResolves_fixed_point (w : World)
    (deleteFaults again : List GoError) (hok : ∀ f ∈ deleteFaults, f = none) :
    (∀ latest ∈ (DeleteInvalidHostnameResolves none deleteFaults w).1.hostname_resolve,
      ∀ early ∈ (DeleteInvalidHostnameResolves none deleteFaults w).1.hostname_resolve,
        ¬ (latest.resolved_hostname = early.hostname
          ∧ latest.hostname = early.resolved_hostname
          ∧ latest.hostname ≠ latest.resolved_hostname
          ∧ latest.resolved_timestamp > early.resolved_timestamp))
      ∧ sqlSelectInvalidHostnames
          (DeleteInvalidHostnameResolves none deleteFaults w).1.hostname_resolve = []
      ∧ DeleteInvalidHostnameResolves none again
          (DeleteInvalidHostnameResolves none deleteFaults w).1
          = ((DeleteInvalidHostnameResolves none deleteFaults w).1, none) := by
  have hres := DeleteInvalidHostnameResolves_hostname_resolve w deleteFaults hok
  have hpair : ∀ latest ∈ (DeleteInvalidHostnameResolves none deleteFaults w).1.hostname_resolve,
      ∀ early ∈ (DeleteInvalidHostnameResolves none deleteFaults w).1.hostname_resolve,
        ¬ (latest.resolved_hostname = early.hostname
          ∧ latest.hostname = early.resolved_hostname
          ∧ latest.hostname ≠ latest.resolved_hostname
          ∧ latest.resolved_timestamp > early.resolved_timestamp) := by
    intro latest hl early he hp
    rw [hres] at hl he
    obtain ⟨hl1, _⟩ := List.mem_filter.1 hl
    obtain ⟨he1, he2⟩ := List.mem_filter.1 he
    simp only [decide_eq_true_eq] at he2
    exact he2 (mem_sqlSelectInvalidHostnames.2
      ⟨latest, hl1, early, he1, hp.1, hp.2.1, hp.2.2.1, hp.2.2.2, rfl⟩)
  have hsel : sqlSelectInvalidHostnames
      (DeleteInvalidHostnameResolves none deleteFaults w).1.hostname_resolve = [] := by
    rw [List.eq_nil_iff_forall_not_mem]
    intro h hm
    obtain ⟨latest, hl, early, he, h1, h2, h3, h4, _⟩ := mem_sqlSelectInvalidHostnames.1 hm
    exact hpair latest hl early he ⟨h1, h2, h3, h4⟩
  exact ⟨hpair, hsel, DeleteInvalidHostnameResolves_nothing_selected _ _ hsel⟩

/-- Witness of C24: after one pass over a->b at 1, b->a at 2, the query selects nothing. -/
theorem DeleteInvalidHostnameResolves_fixed_point_witness :
    sqlSelectInvalidHostnames
        (DeleteInvalidHostnameResolves none []
          { hostname_resolve := [⟨"a", "b", 1⟩, ⟨"b", "a", 2⟩] }).1.hostname_resolve = []
      ∧ DeleteInvalidHostnameResolves none []
          (DeleteInvalidHostnameResolves none []
            { hostname_resolve := [⟨"a", "b", 1⟩, ⟨"b", "a", 2⟩] }).1
          = ((DeleteInvalidHostnameResolves none []
            { hostname_resolve := [⟨"a", "b", 1⟩, ⟨"b", "a", 2⟩] }).1, none) :=
  (DeleteInvalidHostnameResolves_fixed_point
    { hostname_resolve := [⟨"a", "b", 1⟩, ⟨"b", "a", 2⟩] } [] [] (by simp)).2

theorem deleteInvalidLoop_frame (hs : List String) :
    ∀ (faults : List GoError) (acc : World × GoError),
      (deleteInvalidLoop hs faults acc).1.hostname_unresolve = acc.1.hostname_unresolve
        ∧ (deleteInvalidLoop hs faults acc).1.hostname_resolve_history
            = acc.1.hostname_resolve_history
        ∧ (deleteInvalidLoop hs faults acc).1.hostname_unresolve_history
            = acc.1.hostname_unresolve_history := by
  induction hs with
  | nil => intro faults acc; simp [deleteInvalidLoop]
  | cons h rest ih =>
    intro faults acc
    rw [deleteInvalidLoop]
    obtain ⟨a, b, c⟩ := ih faults.tail
      (db.ExecOrchestrator (.deleteHostnameResolve h) faults.head?.join acc.1)
    rw [a, b, c]
    cases faults.head?.join <;> simp [db.ExecOrchestrator, Stmt.apply]

theorem DeleteInvalidHostnameResolves_subset (queryFault : QueryFault)
    (deleteFaults : List GoError) (w : World) (x : ResolveRow)
    (hx : x ∈ (DeleteInvalidHostnameResolves queryFault deleteFaults w).1.hostname_resolve) :
    x ∈ w.hostname_resolve := by
  cases queryFault with
  | none =>
    simp only [DeleteInvalidHostnameResolves, db.QueryOrchestrator, foldl_append_singleton,
      List.nil_append, Option.isSome_none, Bool.false_eq_true, if_false] at hx
    exact deleteInvalidLoop_subset _ _ _ x hx
  | some ke =>
    simpa [DeleteInvalidHostnameResolves, db.QueryOrchestrator] using hx

theorem DeleteInvalidHostnameResolves_other_tables (queryFault : QueryFault)
    (deleteFaults : List GoError) (w : World) :
    (DeleteInvalidHostnameResolves queryFault deleteFaults w).1.hostname_unresolve
        = w.hostname_unresolve
      ∧ (DeleteInvalidHostnameResolves queryFault deleteFaults w).1.hostname_resolve_history
          = w.hostname_resolve_history
      ∧ (DeleteInvalidHostnameResolves queryFault deleteFaults w).1.hostname_unresolve_history
          = w.hostname_unresolve_history := by
  cases queryFault with
  | none =>
    simp only [DeleteInvalidHostnameResolves, db.QueryOrchestrator, foldl_append_singleton,
      List.nil_append, Option.isSome_none, Bool.false_eq_true, if_false]
    exact deleteInvalidLoop_frame _ _ _
  | some ke =>
    simp [DeleteInvalidHostnameResolves, db.QueryOrchestrator]

theorem removed_is_older_half (queryFault : QueryFault) (deleteFaults : List GoError)
    (w : World) (hunique : UniqueHostnames w.hostname_resolve) (x : ResolveRow)
    (hx : x ∈ w.hostname_resolve)
    (hgone : x ∉ (DeleteInvalidHostnameResolves queryFault deleteFaults w).1.hostname_resolve) :
    ∃ latest ∈ w.hostname_resolve, latest.hostname = x.resolved_hostname
      ∧ latest.resolved_hostname = x.hostname ∧ x.hostname ≠ x.resolved_hostname
      ∧ latest.resolved_timestamp > x.resolved_timestamp := by
  have hsel : x.hostname ∈ sqlSelectInvalidHostnames w.hostname_resolve := by
    by_contra hn
    exact hgone (DeleteInvalidHostnameResolves_keeps _ _ _ _ hx hn)
  obtain ⟨latest, hl, early, he, h1, h2, h3, h4, h5⟩ := mem_sqlSelectInvalidHostnames.1 hsel
  have hearly : early = x := unique_row_of_hostname hunique he hx h5
  subst hearly
  exact ⟨latest, hl, h2, h1, fun e => h3 (h2.trans (e.symm.trans h1.symm)), h4⟩

/-- C25. Cycle repair frame: on a forward store with at most one row per hostname, whatever
the outcome of its query and deletes, DeleteInvalidHostnameResolves adds or changes no row,
and removes a row only if it is the strictly older half of a mutual 2-cycle between two
distinct hostnames; self-maps, rows in no 2-cycle and the half of a 2-cycle that is not
older than the other stay, so that of the two halves of a cycle at least one stays; the
reverse store and both history tables are untouched. -/
theorem DeleteInvalidHostnameResolves_frame (queryFault : QueryFault)
    (deleteFaults : List GoError) (w : World) (hunique : UniqueHostnames w.hostname_resolve) :
    (∀ x ∈ (DeleteInvalidHostnameResolves queryFault deleteFaults w).1.hostname_resolve,
        x ∈ w.hostname_resolve)
      ∧ (∀ x ∈ w.hostname_resolve,
          x ∉ (DeleteInvalidHostnameResolves queryFault deleteFaults w).1.hostname_resolve →
          ∃ latest ∈ w.hostname_resolve, latest.hostname = x.resolved_hostname
            ∧ latest.resolved_hostname = x.hostname ∧ x.hostname ≠ x.resolved_hostname
            ∧ latest.resolved_timestamp > x.resolved_timestamp)
      ∧ (∀ x ∈ w.hostname_resolve, x.hostname = x.resolved_hostname →
          x ∈ (DeleteInvalidHostnameResolves queryFault deleteFaults w).1.hostname_resolve)
      ∧ (∀ x ∈ w.hostname_resolve,
          (∀ y ∈ w.hostname_resolve,
            ¬ (y.hostname = x.resolved_hostname ∧ y.resolved_hostname = x.hostname)) →
          x ∈ (DeleteInvalidHostnameResolves queryFault deleteFaults w).1.hostname_resolve)
      ∧ (∀ x ∈ w.hostname_resolve, ∀ y ∈ w.hostname_resolve,
          y.hostname = x.resolved_hostname → y.resolved_hostname = x.hostname →
          y.resolved_timestamp ≤ x.resolved_timestamp →
          x ∈ (DeleteInvalidHostnameResolves queryFault deleteFaults w).1.hostname_resolve)
      ∧ (∀ x ∈ w.hostname_resolve, ∀ y ∈ w.hostname_resolve,
          y.hostname = x.resolved_hostname → y.resolved_hostname = x.hostname →
          x ∈ (DeleteInvalidHostnameResolves queryFault deleteFaults w).1.hostname_resolve
            ∨ y ∈ (DeleteInvalidHostnameResolves queryFault deleteFaults w).1.hostname_resolve)
      ∧ (DeleteInvalidHostnameResolves queryFault deleteFaults w).1.hostname_unresolve
          = w.hostname_unresolve
      ∧ (DeleteInvalidHostnameResolves queryFault deleteFaults w).1.hostname_resolve_history
          = w.hostname_resolve_history
      ∧ (DeleteInvalidHostnameResolves queryFault deleteFaults w).1.hostname_unresolve_history
          = w.hostname_unresolve_history := by
  have hnewer : ∀ x ∈ w.hostname_resolve, ∀ y ∈ w.hostname_resolve,
      y.hostname = x.resolved_hostname → y.resolved_hostname = x.hostname →
      y.resolved_timestamp ≤ x.resolved_timestamp →
      x ∈ (DeleteInvalidHostnameResolves queryFault deleteFaults w).1.hostname_resolve := by
    intro x hx y hy h1 _ hle
    by_contra hgone
    obtain ⟨latest, hl, e1, _, _, e4⟩ :=
      removed_is_older_half queryFault deleteFaults w hunique x hx hgone
    have : latest = y := unique_row_of_hostname hunique hl hy (e1.trans h1.symm)
    subst this
    omega
  refine ⟨fun x hx => DeleteInvalidHostnameResolves_subset _ _ _ x hx,
    fun x hx hgone => removed_is_older_half queryFault deleteFaults w hunique x hx hgone,
    ?_, ?_, hnewer, ?_, DeleteInvalidHostnameResolves_other_tables _ _ _⟩
  · intro x hx hself
    by_contra hgone
    obtain ⟨_, _, _, _, e3, _⟩ :=
      removed_is_older_half queryFault deleteFaults w hunique x hx hgone
    exact e3 hself
  · intro x hx hno
    by_contra hgone
    obtain ⟨latest, hl, e1, e2, _, _⟩ :=
      removed_is_older_half queryFault deleteFaults w hunique x hx hgone
    exact hno latest hl ⟨e1, e2⟩
  · intro x hx y hy h1 h2
    rcases le_total y.resolved_timestamp x.resolved_timestamp with hle | hle
    · exact Or.inl (hnewer x hx y hy h1 h2 hle)
    · exact Or.inr (hnewer y hy x hx h2.symm h1.symm hle)

/-- Witness of C25: the self-map s->s and the newer half b->a stay. -/
theorem DeleteInvalidHostnameResolves_frame_witness :
    (⟨"s", "s", 0⟩ : ResolveRow) ∈ (DeleteInvalidHostnameResolves none []
        { hostname_resolve := [⟨"a", "b", 1⟩, ⟨"b", "a", 2⟩, ⟨"s", "s", 0⟩] }
        ).1.hostname_resolve
      ∧ (⟨"b", "a", 2⟩ : ResolveRow) ∈ (DeleteInvalidHostnameResolves none []
        { hostname_resolve := [⟨"a", "b", 1⟩, ⟨"b", "a", 2⟩, ⟨"s", "s", 0⟩] }
        ).1.hostname_resolve :=
  ⟨(DeleteInvalidHostnameResolves_frame none []
      { hostname_resolve := [⟨"a", "b", 1⟩, ⟨"b", "a", 2⟩, ⟨"s", "s", 0⟩] }
      (by decide)).2.2.1 ⟨"s", "s", 0⟩ (by decide) rfl,
    (DeleteInvalidHostnameResolves_frame none []
      { hostname_resolve := [⟨"a", "b", 1⟩, ⟨"b", "a", 2⟩, ⟨"s", "s", 0⟩] }
      (by decide)).2.2.2.2.1 ⟨"b", "a", 2⟩ (by decide) ⟨"a", "b", 1⟩ (by decide) rfl rfl
      (by decide)⟩

theorem ExecOrchestrator_result (stmt : Stmt) (fault : GoError) (w : World) :
    (db.ExecOrchestrator stmt fault w).2 = fault := by
  cases fault <;> simp [db.ExecOrchestrator]

theorem deleteInvalidLoop_last_result (rest : List String) :
    ∀ (h : String) (faults : List GoError) (acc : World × GoError),
      (deleteInvalidLoop (h :: rest) faults acc).2 = faults.getD rest.length none := by
  induction rest with
  | nil =>
    intro h faults acc
    rw [deleteInvalidLoop, deleteInvalidLoop, ExecOrchestrator_result]
    cases faults <;> simp
  | cons h2 rest ih =>
    intro h faults acc
    rw [deleteInvalidLoop, ih]
    cases faults <;> simp

/-- C26. Cycle repair result: when the selection query fails, DeleteInvalidHostnameResolves
returns the error of the query and hands no statement to the store (the world is as it
was); when the query succeeds it returns nil if nothing was selected, and otherwise the
outcome of the last delete it attempted, the one for the last selected hostname, so that
it returns nil whenever that last delete succeeds, whatever the earlier ones did. -/
theorem DeleteInvalidHostnameResolves_result (w : World) (deleteFaults : List GoError) :
    (∀ (k : Nat) (e : String),
        DeleteInvalidHostnameResolves (some (k, e)) deleteFaults w = (w, some e))
      ∧ (sqlSelectInvalidHostnames w.hostname_resolve = [] →
          (DeleteInvalidHostnameResolves none deleteFaults w).2 = none)
      ∧ (sqlSelectInvalidHostnames w.hostname_resolve ≠ [] →
          (DeleteInvalidHostnameResolves none deleteFaults w).2
            = deleteFaults.getD ((sqlSelectInvalidHostnames w.hostname_resolve).length - 1)
                none)
      ∧ (sqlSelectInvalidHostnames w.hostname_resolve ≠ [] →
          deleteFaults.getD ((sqlSelectInvalidHostnames w.hostname_resolve).length - 1) none
            = none →
          (DeleteInvalidHostnameResolves none deleteFaults w).2 = none) := by
  have hlast : sqlSelectInvalidHostnames w.hostname_resolve ≠ [] →
      (DeleteInvalidHostnameResolves none deleteFaults w).2
        = deleteFaults.getD ((sqlSelectInvalidHostnames w.hostname_resolve).length - 1)
            none := by
    intro hne
    simp only [DeleteInvalidHostnameResolves, db.QueryOrchestrator, foldl_append_singleton,
      List.nil_append, Option.isSome_none, Bool.false_eq_true, if_false]
    cases hs : sqlSelectInvalidHostnames w.hostname_resolve with
    | nil => exact absurd hs hne
    | cons h rest =>
      rw [deleteInvalidLoop_last_result]
      simp
  refine ⟨fun k e => ?_, fun hnil => ?_, hlast, fun hne hf => ?_⟩
  · simp [DeleteInvalidHostnameResolves, db.QueryOrchestrator]
  · rw [DeleteInvalidHostnameResolves_nothing_selected w deleteFaults hnil]
  · rw [hlast hne, hf]

/-- Witness of C26: two cycles; the delete of a fails, the last delete, of c, succeeds, and
the pass returns nil. -/
theorem DeleteInvalidHostnameResolves_result_witness :
    (DeleteInvalidHostnameResolves none [some "lock wait timeout", none]
        { hostname_resolve := [⟨"a", "b", 1⟩, ⟨"b", "a", 2⟩, ⟨"c", "d", 1⟩, ⟨"d", "c", 2⟩] }
        ).2 = none :=
  (DeleteInvalidHostnameResolves_result
    { hostname_resolve := [⟨"a", "b", 1⟩, ⟨"b", "a", 2⟩, ⟨"c", "d", 1⟩, ⟨"d", "c", 2⟩] }
    [some "lock wait timeout", none]).2.2.2 (by decide) (by decide)

theorem deleteInvalidLoop_now (hs : List String) :
    ∀ (faults : List GoError) (acc : World × GoError),
      (deleteInvalidLoop hs faults acc).1.now = acc.1.now := by
  induction hs with
  | nil => intro faults acc; simp [deleteInvalidLoop]
  | cons h rest ih =>
    intro faults acc
    rw [deleteInvalidLoop, ih]
    cases faults.head?.join <;> simp [db.ExecOrchestrator, Stmt.apply]

/-- The repair pass writes no timestamp either: whatever fails, it leaves the stores with no
timestamp later than the clock. -/
theorem TimestampsNotAfterNow_repair (w : World) (hw : TimestampsNotAfterNow w)
    (queryFault : QueryFault) (deleteFaults : List GoError) :
    TimestampsNotAfterNow (DeleteInvalidHostnameResolves queryFault deleteFaults w).1 := by
  obtain ⟨hr, hu⟩ := hw
  have hnow : (DeleteInvalidHostnameResolves queryFault deleteFaults w).1.now = w.now := by
    cases queryFault with
    | none =>
      simp only [DeleteInvalidHostnameResolves, db.QueryOrchestrator, foldl_append_singleton,
        List.nil_append, Option.isSome_none, Bool.false_eq_true, if_false]
      exact deleteInvalidLoop_now _ _ _
    | some ke => simp [DeleteInvalidHostnameResolves, db.QueryOrchestrator]
  refine ⟨fun x hx => ?_, fun x hx => ?_⟩
  · rw [hnow]
    exact hr x (DeleteInvalidHostnameResolves_subset _ _ _ x hx)
  · rw [hnow]
    rw [(DeleteInvalidHostnameResolves_other_tables queryFault deleteFaults w).1] at hx
    exact hu x hx

end Orchestrator
